import Mathlib

/-!
Verification of the structural-topology extraction core of `svparser`
(`python/svparser/lib.py`).

The code walks the flattened node stream of an externally produced syntax
tree (`for node in list(tree.tree)`) and, driven by each node's tag string,
builds either a module-to-instances map (`get_module_instance_map`) or a
list of `Module` records (`get_circuit_topology`).

The embedding models:
  * a syntax node as its tag (`type_name`), its covered source substring
    (`tree.get_str(node)`), and the result of the structural descendant
    query `unwrap_node(node, (tag,))` for each of the five tags the code
    queries (`None` becomes `Option.none`);
  * a tree as the flattened node stream, a `List SNode`;
  * Python dictionaries as insertion-ordered association lists
    (`dictGet` / `dictSet` / `dictHas`);
  * Python runtime faults as values of `PyError` returned through
    `Except`: `NameError` for reading an unbound local (`module`,
    `instance`), `KeyError` for a failed dict/Enum subscript,
    `AttributeError` for `None.type_name` (the walrus assignment
    `node := unwrap_node(...)` overwrites the loop variable with `None`
    when the query fails), and `TypeError` for calling a NamedTuple
    constructor with a required field missing (`Port(...)` is called
    without its declared field `type`).
-/

namespace SV

/-- A tagged syntax node.  Fields model `node.type_name`,
`tree.get_str(node)` (the raw, un-stripped source substring spanned by the
node), and the result of `unwrap_node(node, (tag,))` for each of the five
tag chains the code queries. -/
inductive SNode : Type where
  | mk (tn ss : String)
      (um ui up ud ue : Option SNode) : SNode

/-- The node's tag string (`node.type_name`). -/
def SNode.type_name : SNode → String
  | .mk t _ _ _ _ _ _ => t

/-- The raw source substring spanned by the node (`tree.get_str(node)`). -/
def SNode.get_str : SNode → String
  | .mk _ s _ _ _ _ _ => s

/-- Result of `unwrap_node(node, ('ModuleIdentifier',))`. -/
def SNode.uModuleIdentifier : SNode → Option SNode
  | .mk _ _ m _ _ _ _ => m

/-- Result of `unwrap_node(node, ('InstanceIdentifier',))`. -/
def SNode.uInstanceIdentifier : SNode → Option SNode
  | .mk _ _ _ i _ _ _ => i

/-- Result of `unwrap_node(node, ('PortIdentifier',))`. -/
def SNode.uPortIdentifier : SNode → Option SNode
  | .mk _ _ _ _ p _ _ => p

/-- Result of `unwrap_node(node, ('PortDirection',))`. -/
def SNode.uPortDirection : SNode → Option SNode
  | .mk _ _ _ _ _ d _ => d

/-- Result of `unwrap_node(node, ('Expression',))`. -/
def SNode.uExpression : SNode → Option SNode
  | .mk _ _ _ _ _ _ e => e

/-- Python's substring test `needle in hay` for strings. -/
def strIn (needle hay : String) : Bool :=
  decide (needle.data <:+: hay.data)

/-- Python's default whitespace set for `str.strip()`. -/
def pyIsSpace (c : Char) : Bool :=
  c == ' ' || c == '\t' || c == '\n' || c == '\r' || c == '\x0b' || c == '\x0c'

/-- Python's `s.strip()`: remove leading and trailing whitespace. -/
def pyStrip (s : String) : String :=
  String.mk (((s.data.dropWhile pyIsSpace).reverse.dropWhile pyIsSpace).reverse)

/-- Python runtime faults the two builders can raise. -/
inductive PyError : Type where
  | nameError : PyError
  | keyError : String → PyError
  | attributeError : PyError
  | typeError : PyError
  deriving DecidableEq, Repr

/-- The `Instance` NamedTuple of `lib.py`. -/
structure Instance where
  name : String
  module_name : String
  deriving DecidableEq, Repr

/-- The `Connection` NamedTuple of `lib.py` (its third field is called
`instance` in the source, a reserved word in Lean). -/
structure Connection where
  name : String
  port_name : String
  «instance» : Instance
  deriving DecidableEq, Repr

/-- The `PortDirection` enum of `lib.py`. -/
inductive PortDirection : Type where
  | input
  | output
  | inout
  deriving DecidableEq, Repr

/-- The Enum name lookup `PortDirection[s]`; `none` models the `KeyError`
raised on any other string. -/
def PortDirection.ofName : String → Option PortDirection
  | "input" => some .input
  | "output" => some .output
  | "inout" => some .inout
  | _ => none

/-- The `Port` NamedTuple of `lib.py`.  All three fields are required by
the constructor; `get_circuit_topology` calls `Port(...)` without `type`,
which raises `TypeError` (its second field is called `type` in the source,
a reserved word in Lean). -/
structure Port where
  name : String
  «type» : String
  direction : PortDirection
  deriving DecidableEq, Repr

/-- The `Module` NamedTuple of `lib.py`.  The source stores
`list(module_to_port[m])` whose element order is unspecified Python set
iteration order, so the port collection is modelled as the underlying
finite set. -/
structure Module where
  name : String
  ports : Finset Port
  connections : List Connection
  deriving DecidableEq

/-- Dict read `d[k]`, as `Option` (`none` models `KeyError`/absence). -/
def dictGet {α : Type} (d : List (String × α)) (k : String) : Option α :=
  (d.find? (fun p => p.1 == k)).map (fun p => p.2)

/-- Python's `k in d` membership test for dicts. -/
def dictHas {α : Type} (d : List (String × α)) (k : String) : Bool :=
  d.any (fun p => p.1 == k)

/-- Dict write `d[k] = v`: replaces in place when the key exists, appends
at the end otherwise (Python dicts preserve insertion order). -/
def dictSet {α : Type} (d : List (String × α)) (k : String) (v : α) :
    List (String × α) :=
  if dictHas d k then d.map (fun p => if p.1 == k then (k, v) else p)
  else d ++ [(k, v)]

/-- State of the loop in `get_module_instance_map`: the accumulator dict
and the local variable `module` (`none` while still unbound). -/
structure IMapState where
  module_instance_map : List (String × List Instance)
  module : Option String
  deriving Repr

/-- The `node.type_name == 'ModuleInstantiation'` branch of
`get_module_instance_map`, applied to the (possibly rebound) loop
variable.  Reading `module` while unbound is a `NameError`; a missing map
key is a `KeyError`. -/
def imapInstBranch (st : IMapState) (n : SNode) : Except PyError IMapState :=
  if n.type_name == "ModuleInstantiation" then
    match n.uModuleIdentifier with
    | some mo =>
      match n.uInstanceIdentifier with
      | some ins =>
        match st.module with
        | none => .error .nameError
        | some m =>
          match dictGet st.module_instance_map m with
          | none => .error (.keyError m)
          | some l =>
            .ok (IMapState.mk
              (dictSet st.module_instance_map m
                (l ++ [Instance.mk (pyStrip ins.get_str) (pyStrip mo.get_str)]))
              st.module)
      | none => .ok st
    | none => .ok st
  else .ok st

/-- One iteration of the loop in `get_module_instance_map`.  The first
branch (`'ModuleDeclaration' in node.type_name`) rebinds the loop variable
`node` via the walrus operator; when `unwrap_node` fails the loop variable
becomes `None` and the next branch's `node.type_name` raises
`AttributeError`. -/
def imapStep (st : IMapState) (n0 : SNode) : Except PyError IMapState :=
  if strIn "ModuleDeclaration" n0.type_name then
    match n0.uModuleIdentifier with
    | some d =>
      let module := pyStrip d.get_str
      imapInstBranch
        (IMapState.mk
          (if dictHas st.module_instance_map module then st.module_instance_map
           else st.module_instance_map ++ [(module, [])])
          (some module))
        d
    | none => .error .attributeError
  else imapInstBranch st n0

/-- Run a loop body over the node stream, threading the mutable state and
propagating the first raised fault, exactly as `for node in
list(tree.tree)` does. -/
def runFold {σ : Type} (f : σ → SNode → Except PyError σ) :
    σ → List SNode → Except PyError σ
  | st, [] => .ok st
  | st, n :: ns =>
    match f st n with
    | .error e => .error e
    | .ok st1 => runFold f st1 ns

/-- `get_module_instance_map`: fold the loop body over the node stream and
return the accumulated dict. -/
def get_module_instance_map (tree : List SNode) :
    Except PyError (List (String × List Instance)) :=
  match runFold imapStep (IMapState.mk [] none) tree with
  | .error e => .error e
  | .ok st => .ok st.module_instance_map

/-- State of the loop in `get_circuit_topology`: the two accumulator dicts
and the local variables `module` and `instance` (`none` while unbound). -/
structure TopoState where
  module_to_port : List (String × Finset Port)
  module_to_circuit_topology : List (String × List Connection)
  module : Option String
  «instance» : Option Instance

/-- The `'PortDeclaration' in node.type_name` branch of
`get_circuit_topology`.  Evaluation order follows the source:
`module_to_port[module]` first (`NameError` on unbound `module`, then
`KeyError`), then the arguments of `Port(...)` (the Enum subscript
`PortDirection[...]` raises `KeyError` on an unknown direction name), and
finally the call `Port(name=..., direction=...)` itself, which always
raises `TypeError` because the required field `type` is not passed. -/
def topoPortBranch (st : TopoState) (n : SNode) : Except PyError TopoState :=
  if strIn "PortDeclaration" n.type_name then
    match n.uPortIdentifier with
    | some _ =>
      match n.uPortDirection with
      | some dir =>
        match st.module with
        | none => .error .nameError
        | some m =>
          match dictGet st.module_to_port m with
          | none => .error (.keyError m)
          | some _ =>
            match PortDirection.ofName (pyStrip dir.get_str) with
            | none => .error (.keyError (pyStrip dir.get_str))
            | some _ => .error .typeError
      | none => .ok st
    | none => .ok st
  else .ok st

/-- The `node.type_name == 'ModuleInstantiation'` branch of
`get_circuit_topology`: when both identifiers resolve it only rebinds the
local variable `instance`. -/
def topoInstBranch (st : TopoState) (n : SNode) : TopoState :=
  if n.type_name == "ModuleInstantiation" then
    match n.uModuleIdentifier with
    | some mo =>
      match n.uInstanceIdentifier with
      | some ins =>
        TopoState.mk st.module_to_port st.module_to_circuit_topology st.module
          (some (Instance.mk (pyStrip ins.get_str) (pyStrip mo.get_str)))
      | none => st
    | none => st
  else st

/-- The `node.type_name == 'NamedPortConnection'` branch of
`get_circuit_topology`.  Evaluation order follows the source:
`module_to_circuit_topology[module]` first (`NameError`, then `KeyError`),
then the `Connection(...)` arguments, whose `instance=instance` read
raises `NameError` when no instantiation has been seen. -/
def topoConnBranch (st : TopoState) (n : SNode) : Except PyError TopoState :=
  if n.type_name == "NamedPortConnection" then
    match n.uPortIdentifier with
    | some po =>
      match n.uExpression with
      | some ex =>
        match st.module with
        | none => .error .nameError
        | some m =>
          match dictGet st.module_to_circuit_topology m with
          | none => .error (.keyError m)
          | some l =>
            match st.«instance» with
            | none => .error .nameError
            | some i =>
              .ok (TopoState.mk st.module_to_port
                (dictSet st.module_to_circuit_topology m
                  (l ++ [Connection.mk (pyStrip ex.get_str) (pyStrip po.get_str) i]))
                st.module st.«instance»)
      | none => .ok st
    | none => .ok st
  else .ok st

/-- One iteration of the loop in `get_circuit_topology`.  The declaration
branch rebinds the loop variable `node` via the walrus operator (on query
failure the next branch's `node.type_name` raises `AttributeError`); the
three remaining branches then run in source order on the rebound node. -/
def topoStep (st : TopoState) (n0 : SNode) : Except PyError TopoState :=
  if strIn "ModuleDeclaration" n0.type_name then
    match n0.uModuleIdentifier with
    | some d =>
      let module := pyStrip d.get_str
      let st1 : TopoState :=
        TopoState.mk
          (if dictHas st.module_to_port module then st.module_to_port
           else st.module_to_port ++ [(module, (∅ : Finset Port))])
          (if dictHas st.module_to_circuit_topology module then
            st.module_to_circuit_topology
           else st.module_to_circuit_topology ++ [(module, [])])
          (some module) st.«instance»
      match topoPortBranch st1 d with
      | .error e => .error e
      | .ok st2 => topoConnBranch (topoInstBranch st2 d) d
    | none => .error .attributeError
  else
    match topoPortBranch st n0 with
    | .error e => .error e
    | .ok st2 => topoConnBranch (topoInstBranch st2 n0) n0

/-- One element `Module(m, list(module_to_port[m]),
module_to_circuit_topology[m])` of the final list comprehension of
`get_circuit_topology`, looking both dicts up by key. -/
def buildModule (st : TopoState) (k : String) : Except PyError Module :=
  match dictGet st.module_to_circuit_topology k with
  | none => .error (.keyError k)
  | some conns =>
    match dictGet st.module_to_port k with
    | none => .error (.keyError k)
    | some ps => .ok (Module.mk k ps conns)

/-- The final list comprehension of `get_circuit_topology`: one `Module`
per key of `module_to_circuit_topology`, in insertion order. -/
def buildModules (st : TopoState) : List String → Except PyError (List Module)
  | [] => .ok []
  | k :: ks =>
    match buildModule st k with
    | .error e => .error e
    | .ok M =>
      match buildModules st ks with
      | .error e => .error e
      | .ok Ms => .ok (M :: Ms)

/-- `get_circuit_topology`: fold the loop body over the node stream, then
build one `Module` per key of `module_to_circuit_topology` in insertion
order, looking both dicts up by key exactly as the final list
comprehension does. -/
def get_circuit_topology (tree : List SNode) : Except PyError (List Module) :=
  match runFold topoStep (TopoState.mk [] [] none none) tree with
  | .error e => .error e
  | .ok st => buildModules st (st.module_to_circuit_topology.map (fun p => p.1))

/-! ## Concrete node builders used by witnesses and counterexamples -/

/-- A childless node: every structural query fails on it. -/
def leaf (t s : String) : SNode := SNode.mk t s none none none none none

/-- A module-declaration node whose `ModuleIdentifier` query resolves to a
node spanning `m`. -/
def declNode (m : String) : SNode :=
  SNode.mk "ModuleDeclaration" "" (some (leaf "ModuleIdentifier" m)) none none none none

/-- A module-instantiation node instantiating module `m` as instance `i`. -/
def instNode (m i : String) : SNode :=
  SNode.mk "ModuleInstantiation" "" (some (leaf "ModuleIdentifier" m))
    (some (leaf "InstanceIdentifier" i)) none none none

/-- A named-port-connection node binding expression `e` to port `p`. -/
def connNode (p e : String) : SNode :=
  SNode.mk "NamedPortConnection" "" none none (some (leaf "PortIdentifier" p)) none
    (some (leaf "Expression" e))

/-- A port-declaration node declaring port `p` with direction text `d`. -/
def portNode (p d : String) : SNode :=
  SNode.mk "PortDeclaration" "" none none (some (leaf "PortIdentifier" p))
    (some (leaf "PortDirection" d)) none

/-- The node stream of the end-to-end scenario
`module top; sub s1(.in(x)); endmodule` plus
`module sub(input in); endmodule`. -/
def endToEndTree : List SNode :=
  [declNode "top", instNode "sub" "s1", connNode "in" "x",
   declNode "sub", portNode "in" "input"]

/-! ## Inert-node lemmas: branches that fire but cannot resolve their
descendants leave the state untouched and raise nothing -/

/-- A module-instantiation branch of `get_module_instance_map` whose
queried descendants do not both resolve leaves any state unchanged. -/
theorem imapInstBranch_skip (st : IMapState) (n : SNode)
    (h : n.type_name = "ModuleInstantiation" →
      n.uModuleIdentifier = none ∨ n.uInstanceIdentifier = none) :
    imapInstBranch st n = .ok st := by
  unfold imapInstBranch
  by_cases ht : n.type_name = "ModuleInstantiation"
  · rcases h ht with h1 | h1 <;> simp [ht, h1]
    cases hmo : n.uModuleIdentifier <;> simp [h1]
  · simp [ht]

/-- A port-declaration branch of `get_circuit_topology` whose queried
descendants do not both resolve leaves any state unchanged. -/
theorem topoPortBranch_skip (st : TopoState) (n : SNode)
    (h : strIn "PortDeclaration" n.type_name = true →
      n.uPortIdentifier = none ∨ n.uPortDirection = none) :
    topoPortBranch st n = .ok st := by
  unfold topoPortBranch
  by_cases ht : strIn "PortDeclaration" n.type_name = true
  · rcases h ht with h1 | h1 <;> simp [ht, h1]
    cases hp : n.uPortIdentifier <;> simp [h1]
  · simp [ht]

/-- A module-instantiation branch of `get_circuit_topology` whose queried
descendants do not both resolve leaves any state unchanged. -/
theorem topoInstBranch_skip (st : TopoState) (n : SNode)
    (h : n.type_name = "ModuleInstantiation" →
      n.uModuleIdentifier = none ∨ n.uInstanceIdentifier = none) :
    topoInstBranch st n = st := by
  unfold topoInstBranch
  by_cases ht : n.type_name = "ModuleInstantiation"
  · rcases h ht with h1 | h1 <;> simp [ht, h1]
    cases hmo : n.uModuleIdentifier <;> simp [h1]
  · simp [ht]

/-- A named-port-connection branch of `get_circuit_topology` whose queried
descendants do not both resolve leaves any state unchanged. -/
theorem topoConnBranch_skip (st : TopoState) (n : SNode)
    (h : n.type_name = "NamedPortConnection" →
      n.uPortIdentifier = none ∨ n.uExpression = none) :
    topoConnBranch st n = .ok st := by
  unfold topoConnBranch
  by_cases ht : n.type_name = "NamedPortConnection"
  · rcases h ht with h1 | h1 <;> simp [ht, h1]
    cases hp : n.uPortIdentifier <;> simp [h1]
  · simp [ht]

/-! ## Stream-level specification functions

These restate, directly on the node stream, which events each loop
iteration fires: which name a declaration introduces, which instance an
instantiation produces, which binding a connection produces, and what the
carried-forward context (`module`, `instance`) is after a prefix. -/

/-- The node the three tag-equality branches actually see: the walrus
operator replaces the loop variable with the query result whenever the
declaration branch fires (a failed query leaves `None`, here `none`). -/
def effNode (n : SNode) : Option SNode :=
  if strIn "ModuleDeclaration" n.type_name then n.uModuleIdentifier else some n

/-- The module name a declaration node introduces, if its branch fires and
its identifier resolves. -/
def declaredName (n : SNode) : Option String :=
  if strIn "ModuleDeclaration" n.type_name then
    n.uModuleIdentifier.map (fun d => pyStrip d.get_str)
  else none

/-- The `Instance` the instantiation branch yields on the node it
actually inspects, if that branch fires and both identifiers resolve. -/
def instEventRaw (n : SNode) : Option Instance :=
  if n.type_name = "ModuleInstantiation" then
    match n.uModuleIdentifier, n.uInstanceIdentifier with
    | some mo, some ins => some (Instance.mk (pyStrip ins.get_str) (pyStrip mo.get_str))
    | _, _ => none
  else none

/-- The `(port_name, name)` pair the connection branch yields on the node
it actually inspects, if that branch fires and both queries resolve. -/
def connEventRaw (n : SNode) : Option (String × String) :=
  if n.type_name = "NamedPortConnection" then
    match n.uPortIdentifier, n.uExpression with
    | some po, some ex => some (pyStrip po.get_str, pyStrip ex.get_str)
    | _, _ => none
  else none

/-- The `Instance` an instantiation event on this stream element yields
(on the rebound node, as the code sees it). -/
def instEvent (n : SNode) : Option Instance :=
  (effNode n).bind instEventRaw

/-- The `(port_name, name)` pair a named-port-connection event on this
stream element yields (on the rebound node, as the code sees it). -/
def connEvent (n : SNode) : Option (String × String) :=
  (effNode n).bind connEventRaw

/-- The value of the local variable `module` after a stream prefix: the
name introduced by the most recent successful declaration event. -/
def curModule (ns : List SNode) (cm : Option String) : Option String :=
  ns.foldl (fun acc n => (declaredName n).or acc) cm

/-- The value of the local variable `instance` after a stream prefix: the
instance built by the most recent successful instantiation event. -/
def curInst (ns : List SNode) (ci : Option Instance) : Option Instance :=
  ns.foldl (fun acc n => (instEvent n).or acc) ci

/-- All module names introduced by declaration events of the stream, in
order, with repetitions. -/
def declTrace (ns : List SNode) : List String :=
  ns.filterMap declaredName

/-- The instantiation events of the stream, each paired with the module
context current when it fired. -/
def instTrace : List SNode → Option String → List (String × Instance)
  | [], _ => []
  | n :: ns, cm =>
    let cm1 := (declaredName n).or cm
    match instEvent n, cm1 with
    | some i, some m => (m, i) :: instTrace ns cm1
    | _, _ => instTrace ns cm1

/-- The connection events of the stream, each paired with the module
context current when it fired and built from the instance context current
when it fired. -/
def connTrace : List SNode → Option String → Option Instance → List (String × Connection)
  | [], _, _ => []
  | n :: ns, cm, ci =>
    let cm1 := (declaredName n).or cm
    let ci1 := (instEvent n).or ci
    match connEvent n, cm1, ci1 with
    | some pe, some m, some i =>
      (m, Connection.mk pe.2 pe.1 i) :: connTrace ns cm1 ci1
    | _, _, _ => connTrace ns cm1 ci1

/-- The structural-query collaborator contract (spec of `unwrap_node`):
a query result, when present, is a node carrying the queried tag. -/
def tagMatches (t : String) : Option SNode → Bool
  | none => true
  | some d => d.type_name == t

/-- A node is well formed when each of its five query results carries the
tag it was queried for. -/
def nodeWF (n : SNode) : Bool :=
  tagMatches "ModuleIdentifier" n.uModuleIdentifier &&
  tagMatches "InstanceIdentifier" n.uInstanceIdentifier &&
  tagMatches "PortIdentifier" n.uPortIdentifier &&
  tagMatches "PortDirection" n.uPortDirection &&
  tagMatches "Expression" n.uExpression


theorem imapStep_inert (st : IMapState) (n : SNode)
    (hdecl : strIn "ModuleDeclaration" n.type_name = false)
    (hinst : n.type_name = "ModuleInstantiation" →
      n.uModuleIdentifier = none ∨ n.uInstanceIdentifier = none) :
    imapStep st n = .ok st := by
  unfold imapStep
  rw [hdecl]
  simp only [Bool.false_eq_true, if_false]
  exact imapInstBranch_skip st n hinst

theorem topoStep_inert (st : TopoState) (n : SNode)
    (hdecl : strIn "ModuleDeclaration" n.type_name = false)
    (hport : strIn "PortDeclaration" n.type_name = true →
      n.uPortIdentifier = none ∨ n.uPortDirection = none)
    (hinst : n.type_name = "ModuleInstantiation" →
      n.uModuleIdentifier = none ∨ n.uInstanceIdentifier = none)
    (hconn : n.type_name = "NamedPortConnection" →
      n.uPortIdentifier = none ∨ n.uExpression = none) :
    topoStep st n = .ok st := by
  unfold topoStep
  rw [hdecl]
  simp only [Bool.false_eq_true, if_false]
  rw [topoPortBranch_skip st n hport]
  simp only []
  rw [topoInstBranch_skip st n hinst]
  exact topoConnBranch_skip st n hconn

theorem runFold_inert {σ : Type} (f : σ → SNode → Except PyError σ) (st : σ)
    (tree : List SNode) (h : ∀ n ∈ tree, ∀ s : σ, f s n = .ok s) :
    runFold f st tree = .ok st := by
  induction tree generalizing st with
  | nil => rfl
  | cons n ns ih =>
    unfold runFold
    rw [h n (List.mem_cons_self n ns) st]
    exact ih st (fun m hm s => h m (List.mem_cons_of_mem n hm) s)

/-- C1: the end-to-end scenario `module top; sub s1(.in(x)); endmodule`
plus `module sub(input in); endmodule` does not return the two `Module`
records the claim describes: as soon as the port declaration `input in`
of `sub` resolves, `get_circuit_topology` calls `Port(name=...,
direction=...)` without the required NamedTuple field `type` and raises
`TypeError`. -/
theorem c1_end_to_end_scenario_raises_typeError :
    get_circuit_topology endToEndTree = .error .typeError := rfl

/-- C2: no port-declaration node ever contributes a `Port` to any
module's port set: whether two resolvable port declarations carry an
identical `(name, direction)` text or differing directions,
`get_circuit_topology` raises `TypeError` at the first of them, because
`Port(...)` is called without its required field `type`. -/
theorem c2_port_declarations_raise_typeError :
    get_circuit_topology [declNode "m", portNode "p" "input", portNode "p" "input"] =
      .error .typeError ∧
    get_circuit_topology [declNode "m", portNode "p" "input", portNode "p" "output"] =
      .error .typeError := ⟨rfl, rfl⟩

/-- C3 counterexample: a tree whose stream holds zero module-declaration
nodes but one resolvable module-instantiation node makes
`get_module_instance_map` read the unbound local `module`
(`module_instance_map[module].append(...)`), a `NameError`, instead of
returning the empty mapping. -/
theorem c3_counterexample_instantiation_without_declaration :
    get_module_instance_map [instNode "sub" "s1"] = .error .nameError ∧
    get_module_instance_map [instNode "sub" "s1"] ≠ .ok [] :=
  ⟨rfl, by
    intro h
    rw [show get_module_instance_map [instNode "sub" "s1"] = .error .nameError from rfl] at h
    exact Except.noConfusion h⟩

/-- C3 (amended): for every tree whose stream holds zero
module-declaration nodes and no module-instantiation, port-declaration,
or named-port-connection node that resolves all its queried descendants,
`get_module_instance_map` returns the empty mapping and
`get_circuit_topology` returns the empty collection, and neither
raises. -/
theorem c3_amended_empty_on_eventless_trees (tree : List SNode)
    (hdecl : ∀ n ∈ tree, strIn "ModuleDeclaration" n.type_name = false)
    (hinst : ∀ n ∈ tree, n.type_name = "ModuleInstantiation" →
      n.uModuleIdentifier = none ∨ n.uInstanceIdentifier = none)
    (hport : ∀ n ∈ tree, strIn "PortDeclaration" n.type_name = true →
      n.uPortIdentifier = none ∨ n.uPortDirection = none)
    (hconn : ∀ n ∈ tree, n.type_name = "NamedPortConnection" →
      n.uPortIdentifier = none ∨ n.uExpression = none) :
    get_module_instance_map tree = .ok [] ∧ get_circuit_topology tree = .ok [] := by
  constructor
  · unfold get_module_instance_map
    rw [runFold_inert imapStep _ tree
      (fun n hn s => imapStep_inert s n (hdecl n hn) (hinst n hn))]
  · unfold get_circuit_topology
    rw [runFold_inert topoStep _ tree
      (fun n hn s => topoStep_inert s n (hdecl n hn) (hport n hn) (hinst n hn) (hconn n hn))]
    rfl

theorem c3_amended_witness :
    get_module_instance_map [leaf "Description" "w"] = .ok [] ∧
    get_circuit_topology [leaf "Description" "w"] = .ok [] :=
  c3_amended_empty_on_eventless_trees [leaf "Description" "w"]
    (by intro n hn; rw [List.mem_singleton] at hn; subst hn; decide)
    (by intro n hn; rw [List.mem_singleton] at hn; subst hn; intro h; exact absurd h (by decide))
    (by intro n hn; rw [List.mem_singleton] at hn; subst hn; intro h; exact absurd h (by decide))
    (by intro n hn; rw [List.mem_singleton] at hn; subst hn; intro h; exact absurd h (by decide))

/-- C8: both builders are deterministic pure functions of the input
tree: two runs on the same tree yield structurally equal results.  In
this embedding of the side-effect-free source (each call owns its own
accumulators, the tree is read-only, and a module's ports are the
underlying finite set), this is definitional. -/
theorem c8_builders_deterministic (tree : List SNode) :
    get_module_instance_map tree = get_module_instance_map tree ∧
    get_circuit_topology tree = get_circuit_topology tree := ⟨rfl, rfl⟩

/-- C6 counterexample: a module-declaration node whose `ModuleIdentifier`
query fails is not silently skipped: the walrus assignment leaves the
loop variable `None`, so the next branch's `node.type_name` raises
`AttributeError` in both builders. -/
theorem c6_counterexample_unresolvable_declaration_raises :
    get_module_instance_map [SNode.mk "ModuleDeclaration" "" none none none none none] =
      .error .attributeError ∧
    get_circuit_topology [SNode.mk "ModuleDeclaration" "" none none none none none] =
      .error .attributeError := ⟨rfl, rfl⟩

/-- C6 (amended): a named-port-connection, module-instantiation, or
port-declaration node whose queried descendants do not all resolve
contributes nothing, leaves the state unchanged and raises nothing; a
module-declaration node whose module identifier cannot be resolved,
however, makes both builders raise `AttributeError`, because the walrus
assignment overwrites the loop variable with the absent query result. -/
theorem c6_amended_unresolvable_nodes (sti : IMapState) (stt : TopoState) (n : SNode) :
    (n.type_name = "NamedPortConnection" →
      (n.uPortIdentifier = none ∨ n.uExpression = none) →
      imapStep sti n = .ok sti ∧ topoStep stt n = .ok stt) ∧
    (n.type_name = "ModuleInstantiation" →
      (n.uModuleIdentifier = none ∨ n.uInstanceIdentifier = none) →
      imapStep sti n = .ok sti ∧ topoStep stt n = .ok stt) ∧
    (strIn "PortDeclaration" n.type_name = true →
      strIn "ModuleDeclaration" n.type_name = false →
      n.type_name ≠ "ModuleInstantiation" →
      n.type_name ≠ "NamedPortConnection" →
      (n.uPortIdentifier = none ∨ n.uPortDirection = none) →
      imapStep sti n = .ok sti ∧ topoStep stt n = .ok stt) ∧
    (strIn "ModuleDeclaration" n.type_name = true →
      n.uModuleIdentifier = none →
      imapStep sti n = .error .attributeError ∧
      topoStep stt n = .error .attributeError) := by
  refine ⟨?_, ?_, ?_, ?_⟩
  · intro ht hu
    constructor
    · exact imapStep_inert sti n (by rw [ht]; decide)
        (fun h => absurd (ht ▸ h) (by decide))
    · exact topoStep_inert stt n (by rw [ht]; decide)
        (fun h => absurd (ht ▸ h) (by decide))
        (fun h => absurd (ht ▸ h) (by decide))
        (fun _ => hu)
  · intro ht hu
    constructor
    · exact imapStep_inert sti n (by rw [ht]; decide) (fun _ => hu)
    · exact topoStep_inert stt n (by rw [ht]; decide)
        (fun h => absurd (ht ▸ h) (by decide))
        (fun _ => hu)
        (fun h => absurd (ht ▸ h) (by decide))
  · intro _ hnd hni hnc hu
    constructor
    · exact imapStep_inert sti n hnd (fun h => absurd h hni)
    · exact topoStep_inert stt n hnd (fun _ => hu)
        (fun h => absurd h hni) (fun h => absurd h hnc)
  · intro ht hu
    constructor
    · unfold imapStep
      rw [ht, hu]
      rfl
    · unfold topoStep
      rw [ht, hu]
      rfl

theorem c6_amended_witness :
    imapStep (IMapState.mk [] none) (leaf "NamedPortConnection" "") = .ok (IMapState.mk [] none) ∧
    topoStep (TopoState.mk [] [] none none) (SNode.mk "ModuleDeclaration" "" none none none none none) =
      .error .attributeError :=
  ⟨((c6_amended_unresolvable_nodes (IMapState.mk [] none) (TopoState.mk [] [] none none)
      (leaf "NamedPortConnection" "")).1 rfl (Or.inl rfl)).1,
   ((c6_amended_unresolvable_nodes (IMapState.mk [] none) (TopoState.mk [] [] none none)
      (SNode.mk "ModuleDeclaration" "" none none none none none)).2.2.2 (by decide) rfl).2⟩

/-- C10 counterexample: the claim's clause that a port event after a
redeclaration appends into the previously accumulated record is false:
a resolvable port-declaration event never appends a `Port` — it raises
`TypeError`, because `Port(...)` is called without its required field
`type`.  Shown both on a whole run (redeclaration of `m` followed by a
resolvable port declaration) and at step level (a state whose current
module `m` already owns an accumulated, preserved port set). -/
theorem c10_counterexample_port_event_raises :
    get_circuit_topology [declNode "m", declNode "m", portNode "p" "input"] =
      .error .typeError ∧
    topoStep (TopoState.mk [("m", (∅ : Finset Port))] [("m", [])] (some "m") none)
      (portNode "p" "input") = .error .typeError := ⟨rfl, rfl⟩

/-- C10 (amended): a declaration node that re-declares an already-seen
module name resets nothing in either builder: the accumulated dicts are
unchanged, the name only becomes the current module again (and the
current instance is kept); a subsequent resolvable instantiation then
appends to the previously accumulated instance list of that same module,
and a subsequent resolvable named connection appends to its previously
accumulated connection list; a subsequent resolvable port-declaration
event, however, appends nothing into the preserved port set — it raises
`TypeError`, because `Port(...)` is constructed without its required
field `type`. -/
theorem c10_amended_redeclaration_preserves_accumulated_state (sti : IMapState) (stt : TopoState)
    (n d : SNode) (m : String)
    (htag : strIn "ModuleDeclaration" n.type_name = true)
    (hu : n.uModuleIdentifier = some d)
    (hd : d.type_name = "ModuleIdentifier")
    (hm : pyStrip d.get_str = m)
    (h1 : dictHas sti.module_instance_map m = true)
    (h2 : dictHas stt.module_to_port m = true)
    (h3 : dictHas stt.module_to_circuit_topology m = true) :
    imapStep sti n = .ok (IMapState.mk sti.module_instance_map (some m)) ∧
    topoStep stt n = .ok (TopoState.mk stt.module_to_port stt.module_to_circuit_topology
      (some m) stt.«instance») ∧
    (∀ (st1 : IMapState) (n1 a b : SNode) (l : List Instance),
      n1.type_name = "ModuleInstantiation" →
      n1.uModuleIdentifier = some a → n1.uInstanceIdentifier = some b →
      st1.module = some m →
      dictGet st1.module_instance_map m = some l →
      imapStep st1 n1 = .ok (IMapState.mk
        (dictSet st1.module_instance_map m
          (l ++ [Instance.mk (pyStrip b.get_str) (pyStrip a.get_str)]))
        (some m))) ∧
    (∀ (st1 : TopoState) (n1 p e : SNode) (i : Instance) (l : List Connection),
      n1.type_name = "NamedPortConnection" →
      n1.uPortIdentifier = some p → n1.uExpression = some e →
      st1.module = some m → st1.«instance» = some i →
      dictGet st1.module_to_circuit_topology m = some l →
      topoStep st1 n1 = .ok (TopoState.mk st1.module_to_port
        (dictSet st1.module_to_circuit_topology m
          (l ++ [Connection.mk (pyStrip e.get_str) (pyStrip p.get_str) i]))
        (some m) (some i))) ∧
    (∀ (st1 : TopoState) (n1 p dir : SNode) (s : Finset Port) (pd : PortDirection),
      strIn "PortDeclaration" n1.type_name = true →
      strIn "ModuleDeclaration" n1.type_name = false →
      n1.uPortIdentifier = some p → n1.uPortDirection = some dir →
      st1.module = some m →
      dictGet st1.module_to_port m = some s →
      PortDirection.ofName (pyStrip dir.get_str) = some pd →
      topoStep st1 n1 = .error .typeError) := by
  refine ⟨?_, ?_, ?_, ?_, ?_⟩
  · unfold imapStep
    rw [htag, hu]
    simp only [hm, h1, if_true]
    rw [imapInstBranch_skip _ d (fun h => absurd (hd ▸ h) (by decide))]
  · unfold topoStep
    rw [htag, hu]
    simp only [hm, h2, h3, if_true]
    rw [topoPortBranch_skip _ d (fun h => absurd (hd ▸ h) (by decide))]
    simp only []
    rw [topoInstBranch_skip _ d (fun h => absurd (hd ▸ h) (by decide))]
    rw [topoConnBranch_skip _ d (fun h => absurd (hd ▸ h) (by decide))]
  · intro st1 n1 a b l ht ha hb hmod hget
    unfold imapStep
    rw [show strIn "ModuleDeclaration" n1.type_name = false from by rw [ht]; decide]
    simp only [Bool.false_eq_true, if_false]
    unfold imapInstBranch
    rw [ht]
    simp only [ha, hb, hmod, hget]
    rfl
  · intro st1 n1 p e i l ht hp he hmod hinst hget
    unfold topoStep
    rw [show strIn "ModuleDeclaration" n1.type_name = false from by rw [ht]; decide]
    simp only [Bool.false_eq_true, if_false]
    rw [topoPortBranch_skip st1 n1 (fun h => absurd (ht ▸ h) (by decide))]
    simp only []
    rw [topoInstBranch_skip st1 n1 (fun h => absurd (ht ▸ h) (by decide))]
    unfold topoConnBranch
    rw [ht]
    simp only [hp, he, hmod, hinst, hget]
    rfl
  · intro st1 n1 p dir s pd htp htd hp hdir hmod hget hof
    unfold topoStep
    rw [htd]
    simp only [Bool.false_eq_true, if_false]
    have hpb : topoPortBranch st1 n1 = .error .typeError := by
      unfold topoPortBranch
      rw [htp]
      simp only [if_true, hp, hdir, hmod, hget, hof]
    rw [hpb]

theorem c10_amended_witness :
    imapStep (IMapState.mk [("m", [Instance.mk "i0" "k"])] none) (declNode "m") =
      .ok (IMapState.mk [("m", [Instance.mk "i0" "k"])] (some "m")) :=
  (c10_amended_redeclaration_preserves_accumulated_state
    (IMapState.mk [("m", [Instance.mk "i0" "k"])] none)
    (TopoState.mk [("m", ∅)] [("m", [])] none none)
    (declNode "m") (leaf "ModuleIdentifier" "m") "m"
    (by decide) rfl rfl rfl (by decide) (by decide) (by decide)).1


theorem dictHas_iff_mem {α : Type} (d : List (String × α)) (k : String) :
    dictHas d k = true ↔ k ∈ d.map Prod.fst := by
  induction d with
  | nil => simp [dictHas]
  | cons p ps ih =>
    simp only [dictHas, List.any_cons, Bool.or_eq_true, List.map_cons, List.mem_cons]
    rw [beq_iff_eq]
    constructor
    · rintro (h | h)
      · exact Or.inl h.symm
      · exact Or.inr ((ih).mp h)
    · rintro (h | h)
      · exact Or.inl h.symm
      · exact Or.inr ((ih).mpr h)

theorem dictGet_eq_none {α : Type} (d : List (String × α)) (k : String)
    (h : dictHas d k = false) : dictGet d k = none := by
  induction d with
  | nil => rfl
  | cons p ps ih =>
    simp only [dictHas, List.any_cons, Bool.or_eq_false_iff] at h
    simp only [dictGet, List.find?]
    rw [h.1]
    exact ih h.2

theorem dictHas_of_get {α : Type} (d : List (String × α)) (k : String) (v : α)
    (h : dictGet d k = some v) : dictHas d k = true := by
  by_cases hh : dictHas d k = true
  · exact hh
  · rw [dictGet_eq_none d k (by simpa using hh)] at h
    exact Option.noConfusion h

theorem dictGet_some_of_has {α : Type} (d : List (String × α)) (k : String)
    (h : dictHas d k = true) : ∃ v, dictGet d k = some v := by
  induction d with
  | nil => simp [dictHas] at h
  | cons p ps ih =>
    simp only [dictHas, List.any_cons, Bool.or_eq_true] at h
    simp only [dictGet, List.find?]
    cases hb : (p.1 == k) with
    | true => exact ⟨p.2, rfl⟩
    | false =>
      rcases h with h | h
      · rw [hb] at h; exact Bool.noConfusion h
      · exact ih h

theorem dictGet_append_self {α : Type} (d : List (String × α)) (k : String) (v : α)
    (h : dictHas d k = false) : dictGet (d ++ [(k, v)]) k = some v := by
  induction d with
  | nil => simp [dictGet, List.find?]
  | cons p ps ih =>
    simp only [dictHas, List.any_cons, Bool.or_eq_false_iff] at h
    simp only [List.cons_append, dictGet, List.find?]
    rw [h.1]
    exact ih h.2

theorem dictGet_append_ne {α : Type} (d : List (String × α)) (k m : String) (v : α)
    (h : k ≠ m) : dictGet (d ++ [(m, v)]) k = dictGet d k := by
  induction d with
  | nil =>
    simp only [List.nil_append, dictGet, List.find?]
    rw [show ((m, v).1 == k) = false from by simpa using fun e => h e.symm]
  | cons p ps ih =>
    simp only [List.cons_append, dictGet, List.find?]
    cases hb : (p.1 == k) with
    | true => rfl
    | false => exact ih

theorem dictHas_append {α : Type} (d : List (String × α)) (k m : String) (v : α) :
    dictHas (d ++ [(m, v)]) k = (dictHas d k || (m == k)) := by
  simp [dictHas, List.any_append]

theorem dictSet_keys {α : Type} (d : List (String × α)) (m : String) (v : α)
    (h : dictHas d m = true) : (dictSet d m v).map Prod.fst = d.map Prod.fst := by
  unfold dictSet
  rw [h]
  simp only [if_true, List.map_map]
  apply List.map_congr_left
  intro p _
  by_cases hb : (p.1 == m) = true
  · show (if (p.1 == m) = true then (m, v) else p).1 = p.1
    rw [if_pos hb]
    exact (beq_iff_eq.mp hb).symm
  · show (if (p.1 == m) = true then (m, v) else p).1 = p.1
    rw [if_neg hb]

theorem dictHas_set {α : Type} (d : List (String × α)) (k m : String) (v : α)
    (h : dictHas d m = true) : dictHas (dictSet d m v) k = dictHas d k := by
  rw [Bool.eq_iff_iff, dictHas_iff_mem, dictHas_iff_mem, dictSet_keys d m v h]

theorem find_map_set_self {α : Type} (d : List (String × α)) (k : String) (v : α)
    (h : dictHas d k = true) :
    List.find? (fun p => p.1 == k) (d.map (fun p => if p.1 == k then (k, v) else p)) =
      some (k, v) := by
  induction d with
  | nil => simp [dictHas] at h
  | cons p ps ih =>
    simp only [dictHas, List.any_cons, Bool.or_eq_true] at h
    simp only [List.map_cons, List.find?]
    by_cases hb : (p.1 == k) = true
    · rw [if_pos hb]
      simp [List.find?]
    · rw [if_neg hb]
      rw [show (p.1 == k) = false from by simpa using hb]
      rcases h with h | h
      · exact absurd h hb
      · exact ih h

theorem dictGet_set_self {α : Type} (d : List (String × α)) (m : String) (v : α)
    (h : dictHas d m = true) : dictGet (dictSet d m v) m = some v := by
  unfold dictSet
  rw [h]
  simp only [if_true, dictGet, find_map_set_self d m v h]
  rfl

theorem find_map_set_ne {α : Type} (d : List (String × α)) (k m : String) (v : α)
    (h : k ≠ m) :
    List.find? (fun p => p.1 == k) (d.map (fun p => if p.1 == m then (m, v) else p)) =
      List.find? (fun p => p.1 == k) d := by
  induction d with
  | nil => rfl
  | cons p ps ih =>
    simp only [List.map_cons, List.find?]
    by_cases hb : (p.1 == m) = true
    · rw [if_pos hb]
      have h1 : ((m, v).1 == k) = false := by simpa using fun e => h e.symm
      have h2 : (p.1 == k) = false := by
        have hpm : p.1 = m := beq_iff_eq.mp hb
        rw [hpm]
        simpa using fun e => h e.symm
      rw [h1, h2]
      exact ih
    · rw [if_neg hb]
      cases hc : (p.1 == k) with
      | true => rfl
      | false => exact ih

theorem dictGet_set_ne {α : Type} (d : List (String × α)) (k m : String) (v : α)
    (h : k ≠ m) : dictGet (dictSet d m v) k = dictGet d k := by
  unfold dictSet
  by_cases hh : dictHas d m = true
  · rw [hh]
    simp only [if_true, dictGet, find_map_set_ne d k m v h]
  · rw [show dictHas d m = false from by simpa using hh]
    simp only [Bool.false_eq_true, if_false]
    exact dictGet_append_ne d k m v h

theorem dictGet_of_mem_nodup {α : Type} (d : List (String × α)) (p : String × α)
    (hnd : (d.map Prod.fst).Nodup) (hp : p ∈ d) : dictGet d p.1 = some p.2 := by
  induction d with
  | nil => simp at hp
  | cons q qs ih =>
    simp only [List.map_cons, List.nodup_cons] at hnd
    rcases List.mem_cons.mp hp with rfl | hp2
    · simp [dictGet, List.find?]
    · have hne : (q.1 == p.1) = false := by
        refine beq_eq_false_iff_ne.mpr ?_
        intro e
        exact hnd.1 (e ▸ List.mem_map_of_mem Prod.fst hp2)
      simp only [dictGet, List.find?, hne]
      exact ih hnd.2 hp2

theorem dictGet_mem {α : Type} (d : List (String × α)) (k : String) (v : α)
    (h : dictGet d k = some v) : (k, v) ∈ d := by
  induction d with
  | nil => simp [dictGet] at h
  | cons p ps ih =>
    simp only [dictGet, List.find?] at h
    cases hb : (p.1 == k) with
    | true =>
      rw [hb] at h
      simp only [Option.map_some] at h
      have : p = (k, v) := by
        rcases p with ⟨a, b⟩
        have ha : a = k := by simpa using hb
        have hb2 : b = v := by simpa using h
        rw [ha, hb2]
      exact this ▸ List.mem_cons_self p ps
    | false =>
      rw [hb] at h
      exact List.mem_cons_of_mem p (ih h)


theorem option_or_eq_some {α : Type} (a b : Option α) (c : α) (h : a.or b = some c) :
    a = some c ∨ (a = none ∧ b = some c) := by
  cases a with
  | none => exact Or.inr ⟨rfl, h⟩
  | some x => exact Or.inl h

theorem curModule_cons (n : SNode) (ns : List SNode) (cm : Option String) :
    curModule (n :: ns) cm = curModule ns ((declaredName n).or cm) := rfl

theorem curInst_cons (n : SNode) (ns : List SNode) (ci : Option Instance) :
    curInst (n :: ns) ci = curInst ns ((instEvent n).or ci) := rfl

theorem curModule_append (xs ys : List SNode) (cm : Option String) :
    curModule (xs ++ ys) cm = curModule ys (curModule xs cm) := by
  simp [curModule, List.foldl_append]

theorem curInst_append (xs ys : List SNode) (ci : Option Instance) :
    curInst (xs ++ ys) ci = curInst ys (curInst xs ci) := by
  simp [curInst, List.foldl_append]

theorem declTrace_append (xs ys : List SNode) :
    declTrace (xs ++ ys) = declTrace xs ++ declTrace ys := by
  simp [declTrace]

theorem instTrace_append (xs ys : List SNode) (cm : Option String) :
    instTrace (xs ++ ys) cm = instTrace xs cm ++ instTrace ys (curModule xs cm) := by
  induction xs generalizing cm with
  | nil => rfl
  | cons n ns ih =>
    rw [List.cons_append, curModule_cons]
    cases hc : (declaredName n).or cm <;> cases hi : instEvent n <;>
      simp only [instTrace, hi, hc, List.cons_append] <;>
      first
        | exact ih _
        | exact congrArg _ (ih _)

theorem connTrace_append (xs ys : List SNode) (cm : Option String) (ci : Option Instance) :
    connTrace (xs ++ ys) cm ci =
      connTrace xs cm ci ++ connTrace ys (curModule xs cm) (curInst xs ci) := by
  induction xs generalizing cm ci with
  | nil => rfl
  | cons n ns ih =>
    rw [List.cons_append, curModule_cons, curInst_cons]
    cases hc : (declaredName n).or cm <;> cases hi : (instEvent n).or ci <;>
        cases hce : connEvent n <;>
      simp only [connTrace, hce, hc, hi, List.cons_append] <;>
      first
        | exact ih _ _
        | exact congrArg _ (ih _ _)

theorem curModule_eq_some (l : List SNode) (cm : Option String) (m : String)
    (h : curModule l cm = some m) : m ∈ declTrace l ∨ cm = some m := by
  induction l generalizing cm with
  | nil => exact Or.inr h
  | cons n ns ih =>
    rw [curModule_cons] at h
    rcases ih ((declaredName n).or cm) h with h1 | h1
    · left
      unfold declTrace at h1 ⊢
      rw [List.filterMap_cons]
      cases hd : declaredName n with
      | none => simpa using h1
      | some a => simp [h1]
    · rcases option_or_eq_some _ _ _ h1 with h2 | ⟨h2, h3⟩
      · left
        unfold declTrace
        rw [List.filterMap_cons, h2]
        exact List.mem_cons_self m _
      · exact Or.inr h3

theorem curInst_eq_some (l : List SNode) (ci : Option Instance) (i : Instance)
    (h : curInst l ci = some i) : (∃ n ∈ l, instEvent n = some i) ∨ ci = some i := by
  induction l generalizing ci with
  | nil => exact Or.inr h
  | cons n ns ih =>
    rw [curInst_cons] at h
    rcases ih ((instEvent n).or ci) h with h1 | h1
    · rcases h1 with ⟨n1, hn1, he⟩
      exact Or.inl ⟨n1, List.mem_cons_of_mem n hn1, he⟩
    · rcases option_or_eq_some _ _ _ h1 with h2 | ⟨h2, h3⟩
      · exact Or.inl ⟨n, List.mem_cons_self n ns, h2⟩
      · exact Or.inr h3

theorem instTrace_fst_mem (l : List SNode) (cm : Option String) (m : String) (i : Instance)
    (h : (m, i) ∈ instTrace l cm) : m ∈ declTrace l ∨ cm = some m := by
  induction l generalizing cm with
  | nil => simp [instTrace] at h
  | cons n ns ih =>
    have hdecl : ∀ x, ((declaredName n).or cm = some x) →
        (x ∈ declTrace (n :: ns) ∨ cm = some x) := by
      intro x hx
      rcases option_or_eq_some _ _ _ hx with h2 | ⟨h2, h3⟩
      · left
        unfold declTrace
        rw [List.filterMap_cons, h2]
        exact List.mem_cons_self x _
      · exact Or.inr h3
    have htail : ∀ o : Option String, (declaredName n).or cm = o →
        (m, i) ∈ instTrace ns o → m ∈ declTrace (n :: ns) ∨ cm = some m := by
      intro o ho hmem
      rcases ih o hmem with h1 | h1
      · left
        unfold declTrace at h1 ⊢
        rw [List.filterMap_cons]
        cases hd : declaredName n with
        | none => simpa using h1
        | some a => simp [h1]
      · exact hdecl m (ho.trans h1)
    rw [show instTrace (n :: ns) cm =
        (match instEvent n, (declaredName n).or cm with
         | some i1, some m1 => (m1, i1) :: instTrace ns ((declaredName n).or cm)
         | _, _ => instTrace ns ((declaredName n).or cm)) from rfl] at h
    cases hi : instEvent n with
    | none =>
      rw [hi] at h
      cases hc : (declaredName n).or cm with
      | none =>
        rw [hc] at h
        exact htail none hc (by simpa using h)
      | some m1 =>
        rw [hc] at h
        exact htail (some m1) hc (by simpa using h)
    | some i1 =>
      rw [hi] at h
      cases hc : (declaredName n).or cm with
      | none =>
        rw [hc] at h
        exact htail none hc (by simpa using h)
      | some m1 =>
        rw [hc] at h
        simp only [List.mem_cons] at h
        rcases h with h | h
        · have hm : m1 = m := (Prod.mk.injEq _ _ _ _).mp h.symm |>.1
          exact hdecl m (hm ▸ hc)
        · exact htail (some m1) hc h

theorem connTrace_fst_mem (l : List SNode) (cm : Option String) (ci : Option Instance)
    (m : String) (c : Connection)
    (h : (m, c) ∈ connTrace l cm ci) : m ∈ declTrace l ∨ cm = some m := by
  induction l generalizing cm ci with
  | nil => simp [connTrace] at h
  | cons n ns ih =>
    have hdecl : ∀ x, ((declaredName n).or cm = some x) →
        (x ∈ declTrace (n :: ns) ∨ cm = some x) := by
      intro x hx
      rcases option_or_eq_some _ _ _ hx with h2 | ⟨h2, h3⟩
      · left
        unfold declTrace
        rw [List.filterMap_cons, h2]
        exact List.mem_cons_self x _
      · exact Or.inr h3
    have htail : ∀ (o : Option String) (oi : Option Instance),
        (declaredName n).or cm = o →
        (m, c) ∈ connTrace ns o oi → m ∈ declTrace (n :: ns) ∨ cm = some m := by
      intro o oi ho hmem
      rcases ih o oi hmem with h1 | h1
      · left
        unfold declTrace at h1 ⊢
        rw [List.filterMap_cons]
        cases hd : declaredName n with
        | none => simpa using h1
        | some a => simp [h1]
      · exact hdecl m (ho.trans h1)
    rw [show connTrace (n :: ns) cm ci =
        (match connEvent n, (declaredName n).or cm, (instEvent n).or ci with
         | some pe, some m1, some i1 =>
            (m1, Connection.mk pe.2 pe.1 i1) :: connTrace ns ((declaredName n).or cm) ((instEvent n).or ci)
         | _, _, _ => connTrace ns ((declaredName n).or cm) ((instEvent n).or ci)) from rfl] at h
    cases hce : connEvent n with
    | none =>
      rw [hce] at h
      cases hc : (declaredName n).or cm with
      | none =>
        rw [hc] at h
        exact htail none _ hc (by simpa using h)
      | some m1 =>
        rw [hc] at h
        exact htail (some m1) _ hc (by simpa using h)
    | some pe =>
      rw [hce] at h
      cases hc : (declaredName n).or cm with
      | none =>
        rw [hc] at h
        exact htail none _ hc (by simpa using h)
      | some m1 =>
        rw [hc] at h
        cases hi : (instEvent n).or ci with
        | none =>
          rw [hi] at h
          exact htail (some m1) none hc (by simpa using h)
        | some i1 =>
          rw [hi] at h
          simp only [List.mem_cons] at h
          rcases h with h | h
          · have hm : m1 = m := (Prod.mk.injEq _ _ _ _).mp h.symm |>.1
            exact hdecl m (hm ▸ hc)
          · exact htail (some m1) (some i1) hc h

theorem filter_instTrace_eq_nil (l : List SNode) (m : String) (hm : m ∉ declTrace l) :
    (instTrace l none).filterMap
      (fun p => if p.1 = m then some p.2 else none) = [] := by
  rw [List.filterMap_eq_nil_iff]
  intro p hp
  rcases instTrace_fst_mem l none p.1 p.2 hp with h | h
  · rw [if_neg (fun e : p.1 = m => hm (e ▸ h))]
  · exact Option.noConfusion h

theorem filter_connTrace_eq_nil (l : List SNode) (m : String) (hm : m ∉ declTrace l) :
    (connTrace l none none).filterMap
      (fun p => if p.1 = m then some p.2 else none) = [] := by
  rw [List.filterMap_eq_nil_iff]
  intro p hp
  rcases connTrace_fst_mem l none none p.1 p.2 hp with h | h
  · rw [if_neg (fun e : p.1 = m => hm (e ▸ h))]
  · exact Option.noConfusion h


theorem declaredName_of_not_decl (n : SNode)
    (h : strIn "ModuleDeclaration" n.type_name = false) : declaredName n = none := by
  unfold declaredName
  rw [h]
  rfl

theorem effNode_of_not_decl (n : SNode)
    (h : strIn "ModuleDeclaration" n.type_name = false) : effNode n = some n := by
  unfold effNode
  rw [h]
  rfl

theorem declaredName_of_decl (n : SNode)
    (h : strIn "ModuleDeclaration" n.type_name = true) :
    declaredName n = n.uModuleIdentifier.map (fun d => pyStrip d.get_str) := by
  unfold declaredName
  rw [h]
  rfl

theorem effNode_of_decl (n : SNode)
    (h : strIn "ModuleDeclaration" n.type_name = true) :
    effNode n = n.uModuleIdentifier := by
  unfold effNode
  rw [h]
  rfl

theorem curModule_snoc (pre : List SNode) (n : SNode) :
    curModule (pre ++ [n]) none = (declaredName n).or (curModule pre none) := by
  rw [curModule_append]
  rfl

theorem curInst_snoc (pre : List SNode) (n : SNode) :
    curInst (pre ++ [n]) none = (instEvent n).or (curInst pre none) := by
  rw [curInst_append]
  rfl

theorem declTrace_singleton (n : SNode) : declTrace [n] = (declaredName n).toList := by
  cases hd : declaredName n <;> simp [declTrace, hd]

theorem instTrace_singleton_none (n : SNode) (cm : Option String)
    (h : instEvent n = none) : instTrace [n] cm = [] := by
  simp [instTrace, h]

theorem instTrace_singleton_some (n : SNode) (cm : Option String) (i : Instance)
    (m : String) (h : instEvent n = some i) (hc : (declaredName n).or cm = some m) :
    instTrace [n] cm = [(m, i)] := by
  simp [instTrace, h, hc]

/-- Invariant carried through the loop of `get_module_instance_map` after
processing the prefix `pre` of the stream. -/
structure IMapInv (pre : List SNode) (st : IMapState) : Prop where
  mod : st.module = curModule pre none
  nodup : (st.module_instance_map.map Prod.fst).Nodup
  has_iff : ∀ k, dictHas st.module_instance_map k = true ↔ k ∈ declTrace pre
  val : ∀ k l, dictGet st.module_instance_map k = some l →
    l = (instTrace pre none).filterMap (fun p => if p.1 = k then some p.2 else none)
  curHas : ∀ m, st.module = some m → dictHas st.module_instance_map m = true

theorem imapInstBranch_ok_cases (st st1 : IMapState) (n : SNode)
    (h : imapInstBranch st n = .ok st1) :
    (instEventRaw n = none ∧ st1 = st) ∨
    (∃ i m l, instEventRaw n = some i ∧ st.module = some m ∧
      dictGet st.module_instance_map m = some l ∧
      st1 = IMapState.mk (dictSet st.module_instance_map m (l ++ [i])) (some m)) := by
  unfold imapInstBranch at h
  by_cases ht : n.type_name = "ModuleInstantiation"
  · rw [if_pos (show (n.type_name == "ModuleInstantiation") = true from beq_iff_eq.mpr ht)] at h
    cases hmo : n.uModuleIdentifier with
    | none =>
      simp only [hmo] at h
      exact Or.inl ⟨by simp [instEventRaw, ht, hmo], (Except.ok.inj h).symm⟩
    | some mo =>
      simp only [hmo] at h
      cases hins : n.uInstanceIdentifier with
      | none =>
        simp only [hins] at h
        exact Or.inl ⟨by simp [instEventRaw, ht, hmo, hins], (Except.ok.inj h).symm⟩
      | some ins =>
        simp only [hins] at h
        cases hm : st.module with
        | none =>
          simp only [hm] at h
          exact Except.noConfusion h
        | some m =>
          simp only [hm] at h
          cases hl : dictGet st.module_instance_map m with
          | none =>
            simp only [hl] at h
            exact Except.noConfusion h
          | some l =>
            simp only [hl] at h
            refine Or.inr ⟨Instance.mk (pyStrip ins.get_str) (pyStrip mo.get_str), m, l,
              by simp [instEventRaw, ht, hmo, hins], rfl, hl, (Except.ok.inj h).symm⟩
  · rw [if_neg (show ¬(n.type_name == "ModuleInstantiation") = true from
      fun hb => ht (beq_iff_eq.mp hb))] at h
    exact Or.inl ⟨by simp [instEventRaw, ht], (Except.ok.inj h).symm⟩

theorem imapStep_preserves (pre : List SNode) (st st1 : IMapState) (n : SNode)
    (hinv : IMapInv pre st) (hstep : imapStep st n = .ok st1) :
    IMapInv (pre ++ [n]) st1 := by
  unfold imapStep at hstep
  by_cases hdecl : strIn "ModuleDeclaration" n.type_name = true
  · rw [hdecl] at hstep
    simp only [if_true] at hstep
    cases hu : n.uModuleIdentifier with
    | none =>
      simp only [hu] at hstep
      exact Except.noConfusion hstep
    | some d =>
      simp only [hu] at hstep
      -- the declaration branch fired and rebound the loop variable to d
      have hdn : declaredName n = some (pyStrip d.get_str) := by
        rw [declaredName_of_decl n hdecl, hu]
        rfl
      have heff : effNode n = some d := by rw [effNode_of_decl n hdecl, hu]
      have hie : instEvent n = instEventRaw d := by
        unfold instEvent
        rw [heff]
        rfl
      have hcm : curModule (pre ++ [n]) none = some (pyStrip d.get_str) := by
        rw [curModule_snoc, hdn]
        rfl
      have hdt : declTrace (pre ++ [n]) = declTrace pre ++ [pyStrip d.get_str] := by
        rw [declTrace_append, declTrace_singleton, hdn]
        rfl
      set m0 := pyStrip d.get_str with hm0
      -- the dict after the two membership guards
      set map1 := (if dictHas st.module_instance_map m0 then st.module_instance_map
        else st.module_instance_map ++ [(m0, [])]) with hmap1
      have h_nodup1 : (map1.map Prod.fst).Nodup := by
        rw [hmap1]
        by_cases hh : dictHas st.module_instance_map m0 = true
        · rw [hh]
          simpa using hinv.nodup
        · rw [show dictHas st.module_instance_map m0 = false from by simpa using hh]
          simp only [Bool.false_eq_true, if_false, List.map_append]
          rw [List.nodup_append]
          refine ⟨hinv.nodup, by simp, ?_⟩
          intro a ha
          simp only [List.map_cons, List.map_nil, List.mem_singleton]
          intro hb
          rw [hb] at ha
          exact hh ((dictHas_iff_mem _ _).mpr ha)
      have h_has1 : ∀ k, dictHas map1 k = true ↔ (k ∈ declTrace pre ∨ k = m0) := by
        intro k
        rw [hmap1]
        by_cases hh : dictHas st.module_instance_map m0 = true
        · rw [hh]
          simp only [if_true]
          constructor
          · intro hk
            exact Or.inl ((hinv.has_iff k).mp hk)
          · rintro (hk | rfl)
            · exact (hinv.has_iff k).mpr hk
            · exact hh
        · rw [show dictHas st.module_instance_map m0 = false from by simpa using hh]
          simp only [Bool.false_eq_true, if_false]
          rw [dictHas_append]
          constructor
          · intro hk
            rcases Bool.or_eq_true _ _ |>.mp hk with hk | hk
            · exact Or.inl ((hinv.has_iff k).mp hk)
            · exact Or.inr (beq_iff_eq.mp hk).symm
          · rintro (hk | rfl)
            · exact Bool.or_eq_true _ _ |>.mpr (Or.inl ((hinv.has_iff k).mpr hk))
            · exact Bool.or_eq_true _ _ |>.mpr (Or.inr (beq_iff_eq.mpr rfl))
      have h_val1 : ∀ k l, dictGet map1 k = some l →
          l = (instTrace pre none).filterMap (fun p => if p.1 = k then some p.2 else none) := by
        intro k l hk
        rw [hmap1] at hk
        by_cases hh : dictHas st.module_instance_map m0 = true
        · rw [hh] at hk
          simp only [if_true] at hk
          exact hinv.val k l hk
        · rw [show dictHas st.module_instance_map m0 = false from by simpa using hh] at hk
          simp only [Bool.false_eq_true, if_false] at hk
          by_cases hkm : k = m0
          · rw [hkm] at hk ⊢
            rw [dictGet_append_self _ _ _ (by simpa using hh)] at hk
            have hnm : m0 ∉ declTrace pre := by
              intro hmem
              exact hh ((hinv.has_iff m0).mpr hmem)
            rw [filter_instTrace_eq_nil pre m0 hnm]
            exact (Option.some.inj hk).symm
          · rw [dictGet_append_ne _ _ _ _ hkm] at hk
            exact hinv.val k l hk
      have h_curHas1 : dictHas map1 m0 = true := (h_has1 m0).mpr (Or.inr rfl)
      -- now the instantiation branch runs on the rebound node d
      rcases imapInstBranch_ok_cases _ _ _ hstep with ⟨hraw, rfl⟩ |
        ⟨i, m, l, hraw, hmod, hget, rfl⟩
      · -- nothing appended
        have hit : instTrace (pre ++ [n]) none = instTrace pre none := by
          rw [instTrace_append, instTrace_singleton_none n _ (hie.trans hraw)]
          simp
        exact ⟨by simpa using hcm.symm, h_nodup1, by
            intro k
            rw [h_has1 k, hdt]
            simp,
          by
            intro k l hk
            rw [hit]
            exact h_val1 k l hk,
          by
            intro m hm
            have hmm : m0 = m := by simpa using hm
            rw [← hmm]
            exact h_curHas1⟩
      · -- an instance was appended to the current module m0
        obtain rfl : m = m0 := (Option.some.inj hmod).symm
        have hit : instTrace (pre ++ [n]) none = instTrace pre none ++ [(m0, i)] := by
          rw [instTrace_append, instTrace_singleton_some n _ i m0 (hie.trans hraw)
            (by rw [hdn]; rfl)]
        refine ⟨by simpa using hcm.symm, ?_, ?_, ?_, ?_⟩
        · rw [dictSet_keys _ _ _ (dictHas_of_get _ _ _ hget)]
          exact h_nodup1
        · intro k
          rw [dictHas_set _ _ _ _ (dictHas_of_get _ _ _ hget), h_has1 k, hdt]
          simp
        · intro k l2 hk
          by_cases hkm : k = m0
          · rw [hkm] at hk ⊢
            rw [dictGet_set_self _ _ _ (dictHas_of_get _ _ _ hget)] at hk
            rw [hit, List.filterMap_append]
            have hl2 : l2 = l ++ [i] := (Option.some.inj hk).symm
            rw [hl2, h_val1 m0 l hget]
            simp
          · rw [dictGet_set_ne _ _ _ _ hkm] at hk
            rw [hit, List.filterMap_append]
            have hnil : List.filterMap (fun p => if p.1 = k then some p.2 else none)
                [(m0, i)] = [] := by
              simp [Ne.symm hkm]
            rw [hnil, List.append_nil]
            exact h_val1 k l2 hk
        · intro m2 hm2
          have hm2e : m0 = m2 := by simpa using hm2
          rw [← hm2e, dictHas_set _ _ _ _ (dictHas_of_get _ _ _ hget)]
          exact dictHas_of_get _ _ _ hget
  · -- the declaration branch did not fire
    have hdecl2 : strIn "ModuleDeclaration" n.type_name = false := by simpa using hdecl
    rw [hdecl2] at hstep
    simp only [Bool.false_eq_true, if_false] at hstep
    have hdn : declaredName n = none := declaredName_of_not_decl n hdecl2
    have hie : instEvent n = instEventRaw n := by
      unfold instEvent
      rw [effNode_of_not_decl n hdecl2]
      rfl
    have hcm : curModule (pre ++ [n]) none = curModule pre none := by
      rw [curModule_snoc, hdn]
      rfl
    have hdt : declTrace (pre ++ [n]) = declTrace pre := by
      rw [declTrace_append, declTrace_singleton, hdn]
      simp
    rcases imapInstBranch_ok_cases _ _ _ hstep with ⟨hraw, rfl⟩ |
      ⟨i, m, l, hraw, hmod, hget, rfl⟩
    · have hit : instTrace (pre ++ [n]) none = instTrace pre none := by
        rw [instTrace_append, instTrace_singleton_none n _ (hie.trans hraw)]
        simp
      exact ⟨hcm ▸ hinv.mod, hinv.nodup, fun k => hdt ▸ hinv.has_iff k,
        fun k l hk => hit ▸ hinv.val k l hk, hinv.curHas⟩
    · have hcur : curModule pre none = some m := hinv.mod ▸ hmod
      have hit : instTrace (pre ++ [n]) none = instTrace pre none ++ [(m, i)] := by
        rw [instTrace_append, instTrace_singleton_some n _ i m (hie.trans hraw)
          (by rw [hdn]; simpa using hcur)]
      have hhas : dictHas st.module_instance_map m = true := dictHas_of_get _ _ _ hget
      refine ⟨?_, ?_, ?_, ?_, ?_⟩
      · show some m = _
        rw [hcm]
        exact hcur.symm
      · rw [dictSet_keys _ _ _ hhas]
        exact hinv.nodup
      · intro k
        rw [dictHas_set _ _ _ _ hhas, hdt]
        exact hinv.has_iff k
      · intro k l2 hk
        by_cases hkm : k = m
        · rw [hkm] at hk ⊢
          rw [dictGet_set_self _ _ _ hhas] at hk
          rw [hit, List.filterMap_append]
          have hl2 : l2 = l ++ [i] := (Option.some.inj hk).symm
          rw [hl2, hinv.val m l hget]
          simp
        · rw [dictGet_set_ne _ _ _ _ hkm] at hk
          rw [hit, List.filterMap_append]
          have hnil : List.filterMap (fun p => if p.1 = k then some p.2 else none)
              [(m, i)] = [] := by
            simp [Ne.symm hkm]
          rw [hnil, List.append_nil]
          exact hinv.val k l2 hk
      · intro m2 hm2
        have hm2e : m = m2 := by simpa using hm2
        rw [← hm2e, dictHas_set _ _ _ _ hhas]
        exact hhas

theorem IMapInv_nil : IMapInv [] (IMapState.mk [] none) := by
  refine ⟨rfl, List.nodup_nil, ?_, ?_, ?_⟩
  · intro k
    simp [dictHas, declTrace]
  · intro k l h
    simp [dictGet] at h
  · intro m h
    exact Option.noConfusion h

theorem imap_run_inv (tree : List SNode) : ∀ (pre : List SNode) (st st1 : IMapState),
    IMapInv pre st → runFold imapStep st tree = .ok st1 → IMapInv (pre ++ tree) st1 := by
  induction tree with
  | nil =>
    intro pre st st1 hinv h
    have h2 : (Except.ok st : Except PyError IMapState) = Except.ok st1 := by
      simpa [runFold] using h
    rw [List.append_nil]
    exact (Except.ok.inj h2) ▸ hinv
  | cons n ns ih =>
    intro pre st st1 hinv h
    unfold runFold at h
    cases hstep : imapStep st n with
    | error e => rw [hstep] at h; exact Except.noConfusion h
    | ok stm =>
      rw [hstep] at h
      have := ih (pre ++ [n]) stm st1 (imapStep_preserves pre st stm n hinv hstep) h
      simpa using this

theorem get_module_instance_map_ok (tree : List SNode) (d : List (String × List Instance))
    (h : get_module_instance_map tree = .ok d) :
    ∃ st : IMapState, runFold imapStep (IMapState.mk [] none) tree = .ok st ∧
      st.module_instance_map = d ∧ IMapInv tree st := by
  unfold get_module_instance_map at h
  cases hr : runFold imapStep (IMapState.mk [] none) tree with
  | error e => rw [hr] at h; exact Except.noConfusion h
  | ok st =>
    rw [hr] at h
    exact ⟨st, rfl, Except.ok.inj h,
      by simpa using imap_run_inv tree [] (IMapState.mk [] none) st IMapInv_nil hr⟩


theorem connTrace_singleton_none (n : SNode) (cm : Option String) (ci : Option Instance)
    (h : connEvent n = none) : connTrace [n] cm ci = [] := by
  simp [connTrace, h]

theorem connTrace_singleton_some (n : SNode) (cm : Option String) (ci : Option Instance)
    (pe : String × String) (m : String) (i : Instance)
    (h : connEvent n = some pe) (hc : (declaredName n).or cm = some m)
    (hi : (instEvent n).or ci = some i) :
    connTrace [n] cm ci = [(m, Connection.mk pe.2 pe.1 i)] := by
  simp [connTrace, h, hc, hi]

/-- Invariant carried through the loop of `get_circuit_topology` after
processing the prefix `pre` of the stream. -/
structure TopoInv (pre : List SNode) (st : TopoState) : Prop where
  mod : st.module = curModule pre none
  inst : st.«instance» = curInst pre none
  nodup : (st.module_to_circuit_topology.map Prod.fst).Nodup
  has_iff : ∀ k, dictHas st.module_to_circuit_topology k = true ↔ k ∈ declTrace pre
  port_has : ∀ k, dictHas st.module_to_port k = dictHas st.module_to_circuit_topology k
  port_empty : ∀ k s, dictGet st.module_to_port k = some s → s = (∅ : Finset Port)
  val : ∀ k l, dictGet st.module_to_circuit_topology k = some l →
    l = (connTrace pre none none).filterMap (fun p => if p.1 = k then some p.2 else none)
  curHas : ∀ m, st.module = some m → dictHas st.module_to_circuit_topology m = true

/-- The port branch either raises or leaves the state untouched: the
`Port(...)` call can never complete, so nothing is ever added. -/
theorem topoPortBranch_ok_eq (st st1 : TopoState) (n : SNode)
    (h : topoPortBranch st n = .ok st1) : st1 = st := by
  unfold topoPortBranch at h
  by_cases ht : strIn "PortDeclaration" n.type_name = true
  · rw [ht] at h
    simp only [if_true] at h
    cases hp : n.uPortIdentifier with
    | none =>
      simp only [hp] at h
      exact (Except.ok.inj h).symm
    | some po =>
      simp only [hp] at h
      cases hd : n.uPortDirection with
      | none =>
        simp only [hd] at h
        exact (Except.ok.inj h).symm
      | some dir =>
        simp only [hd] at h
        cases hm : st.module with
        | none =>
          simp only [hm] at h
          exact Except.noConfusion h
        | some m =>
          simp only [hm] at h
          cases hg : dictGet st.module_to_port m with
          | none =>
            simp only [hg] at h
            exact Except.noConfusion h
          | some s =>
            simp only [hg] at h
            cases ho : PortDirection.ofName (pyStrip dir.get_str) with
            | none =>
              simp only [ho] at h
              exact Except.noConfusion h
            | some p2 =>
              simp only [ho] at h
              exact Except.noConfusion h
  · rw [show strIn "PortDeclaration" n.type_name = false from by simpa using ht] at h
    simp only [Bool.false_eq_true, if_false] at h
    exact (Except.ok.inj h).symm

/-- The instantiation branch only updates the local variable `instance`. -/
theorem topoInstBranch_eq (st : TopoState) (n : SNode) :
    topoInstBranch st n = TopoState.mk st.module_to_port st.module_to_circuit_topology
      st.module ((instEventRaw n).or st.«instance») := by
  unfold topoInstBranch instEventRaw
  by_cases ht : n.type_name = "ModuleInstantiation"
  · rw [if_pos (show (n.type_name == "ModuleInstantiation") = true from beq_iff_eq.mpr ht),
      if_pos ht]
    cases hmo : n.uModuleIdentifier with
    | none => rfl
    | some mo =>
      cases hins : n.uInstanceIdentifier with
      | none => rfl
      | some ins => rfl
  · rw [if_neg (show ¬(n.type_name == "ModuleInstantiation") = true from
      fun hb => ht (beq_iff_eq.mp hb)), if_neg ht]
    rfl

theorem topoConnBranch_ok_cases (st st1 : TopoState) (n : SNode)
    (h : topoConnBranch st n = .ok st1) :
    (connEventRaw n = none ∧ st1 = st) ∨
    (∃ pe m l i, connEventRaw n = some pe ∧ st.module = some m ∧
      dictGet st.module_to_circuit_topology m = some l ∧ st.«instance» = some i ∧
      st1 = TopoState.mk st.module_to_port
        (dictSet st.module_to_circuit_topology m (l ++ [Connection.mk pe.2 pe.1 i]))
        (some m) (some i)) := by
  unfold topoConnBranch at h
  by_cases ht : n.type_name = "NamedPortConnection"
  · rw [if_pos (show (n.type_name == "NamedPortConnection") = true from beq_iff_eq.mpr ht)] at h
    cases hp : n.uPortIdentifier with
    | none =>
      simp only [hp] at h
      exact Or.inl ⟨by simp [connEventRaw, ht, hp], (Except.ok.inj h).symm⟩
    | some po =>
      simp only [hp] at h
      cases he : n.uExpression with
      | none =>
        simp only [he] at h
        exact Or.inl ⟨by simp [connEventRaw, ht, hp, he], (Except.ok.inj h).symm⟩
      | some ex =>
        simp only [he] at h
        cases hm : st.module with
        | none =>
          simp only [hm] at h
          exact Except.noConfusion h
        | some m =>
          simp only [hm] at h
          cases hl : dictGet st.module_to_circuit_topology m with
          | none =>
            simp only [hl] at h
            exact Except.noConfusion h
          | some l =>
            simp only [hl] at h
            cases hi : st.«instance» with
            | none =>
              simp only [hi] at h
              exact Except.noConfusion h
            | some i =>
              simp only [hi] at h
              exact Or.inr ⟨(pyStrip po.get_str, pyStrip ex.get_str), m, l, i,
                by simp [connEventRaw, ht, hp, he], rfl, hl, rfl, (Except.ok.inj h).symm⟩
  · rw [if_neg (show ¬(n.type_name == "NamedPortConnection") = true from
      fun hb => ht (beq_iff_eq.mp hb))] at h
    exact Or.inl ⟨by simp [connEventRaw, ht], (Except.ok.inj h).symm⟩

/-- What the three tag-equality branches do to any state `stA`, given that
the whole iteration returned successfully. -/
theorem topoStep_after_decl (stA st1 : TopoState) (d : SNode)
    (h : (match topoPortBranch stA d with
          | Except.error e => (Except.error e : Except PyError TopoState)
          | Except.ok st2 => topoConnBranch (topoInstBranch st2 d) d) = .ok st1) :
    (connEventRaw d = none ∧ st1 = TopoState.mk stA.module_to_port
        stA.module_to_circuit_topology stA.module ((instEventRaw d).or stA.«instance»)) ∨
    (∃ pe m l i, connEventRaw d = some pe ∧ stA.module = some m ∧
      dictGet stA.module_to_circuit_topology m = some l ∧
      ((instEventRaw d).or stA.«instance») = some i ∧
      st1 = TopoState.mk stA.module_to_port
        (dictSet stA.module_to_circuit_topology m (l ++ [Connection.mk pe.2 pe.1 i]))
        (some m) (some i)) := by
  cases hport : topoPortBranch stA d with
  | error e =>
    rw [hport] at h
    exact Except.noConfusion h
  | ok st2 =>
    rw [hport] at h
    simp only [] at h
    rw [topoPortBranch_ok_eq _ _ _ hport] at h
    rw [topoInstBranch_eq] at h
    rcases topoConnBranch_ok_cases _ _ _ h with ⟨hraw, rfl⟩ |
      ⟨pe, m, l, i, hraw, hmod, hget, hinst, rfl⟩
    · exact Or.inl ⟨hraw, rfl⟩
    · exact Or.inr ⟨pe, m, l, i, hraw, hmod, hget, hinst, rfl⟩

theorem topoStep_preserves (pre : List SNode) (st st1 : TopoState) (n : SNode)
    (hinv : TopoInv pre st) (hstep : topoStep st n = .ok st1) :
    TopoInv (pre ++ [n]) st1 := by
  unfold topoStep at hstep
  by_cases hdecl : strIn "ModuleDeclaration" n.type_name = true
  · rw [hdecl] at hstep
    simp only [if_true] at hstep
    cases hu : n.uModuleIdentifier with
    | none =>
      simp only [hu] at hstep
      exact Except.noConfusion hstep
    | some d =>
      simp only [hu] at hstep
      have hdn : declaredName n = some (pyStrip d.get_str) := by
        rw [declaredName_of_decl n hdecl, hu]
        rfl
      have heff : effNode n = some d := by rw [effNode_of_decl n hdecl, hu]
      have hie : instEvent n = instEventRaw d := by
        unfold instEvent
        rw [heff]
        rfl
      have hcee : connEvent n = connEventRaw d := by
        unfold connEvent
        rw [heff]
        rfl
      have hcm : curModule (pre ++ [n]) none = some (pyStrip d.get_str) := by
        rw [curModule_snoc, hdn]
        rfl
      have hci : curInst (pre ++ [n]) none = (instEventRaw d).or (st.«instance») := by
        rw [curInst_snoc, hie, hinv.inst]
      have hdt : declTrace (pre ++ [n]) = declTrace pre ++ [pyStrip d.get_str] := by
        rw [declTrace_append, declTrace_singleton, hdn]
        rfl
      set m0 := pyStrip d.get_str with hm0
      set ports1 := (if dictHas st.module_to_port m0 then st.module_to_port
        else st.module_to_port ++ [(m0, (∅ : Finset Port))]) with hports1
      set topo1 := (if dictHas st.module_to_circuit_topology m0 then
        st.module_to_circuit_topology
        else st.module_to_circuit_topology ++ [(m0, [])]) with htopo1
      have h_nodup1 : (topo1.map Prod.fst).Nodup := by
        rw [htopo1]
        by_cases hh : dictHas st.module_to_circuit_topology m0 = true
        · rw [hh]
          simpa using hinv.nodup
        · rw [show dictHas st.module_to_circuit_topology m0 = false from by simpa using hh]
          simp only [Bool.false_eq_true, if_false, List.map_append]
          rw [List.nodup_append]
          refine ⟨hinv.nodup, by simp, ?_⟩
          intro a ha
          simp only [List.map_cons, List.map_nil, List.mem_singleton]
          intro hb
          rw [hb] at ha
          exact hh ((dictHas_iff_mem _ _).mpr ha)
      have h_has1 : ∀ k, dictHas topo1 k = true ↔ (k ∈ declTrace pre ∨ k = m0) := by
        intro k
        rw [htopo1]
        by_cases hh : dictHas st.module_to_circuit_topology m0 = true
        · rw [hh]
          simp only [if_true]
          constructor
          · intro hk
            exact Or.inl ((hinv.has_iff k).mp hk)
          · rintro (hk | rfl)
            · exact (hinv.has_iff k).mpr hk
            · exact hh
        · rw [show dictHas st.module_to_circuit_topology m0 = false from by simpa using hh]
          simp only [Bool.false_eq_true, if_false]
          rw [dictHas_append]
          constructor
          · intro hk
            rcases Bool.or_eq_true _ _ |>.mp hk with hk | hk
            · exact Or.inl ((hinv.has_iff k).mp hk)
            · exact Or.inr (beq_iff_eq.mp hk).symm
          · rintro (hk | rfl)
            · exact Bool.or_eq_true _ _ |>.mpr (Or.inl ((hinv.has_iff k).mpr hk))
            · exact Bool.or_eq_true _ _ |>.mpr (Or.inr (beq_iff_eq.mpr rfl))
      have h_val1 : ∀ k l, dictGet topo1 k = some l →
          l = (connTrace pre none none).filterMap
            (fun p => if p.1 = k then some p.2 else none) := by
        intro k l hk
        rw [htopo1] at hk
        by_cases hh : dictHas st.module_to_circuit_topology m0 = true
        · rw [hh] at hk
          simp only [if_true] at hk
          exact hinv.val k l hk
        · rw [show dictHas st.module_to_circuit_topology m0 = false from by simpa using hh] at hk
          simp only [Bool.false_eq_true, if_false] at hk
          by_cases hkm : k = m0
          · rw [hkm] at hk ⊢
            rw [dictGet_append_self _ _ _ (by simpa using hh)] at hk
            have hnm : m0 ∉ declTrace pre := by
              intro hmem
              exact hh ((hinv.has_iff m0).mpr hmem)
            rw [filter_connTrace_eq_nil pre m0 hnm]
            exact (Option.some.inj hk).symm
          · rw [dictGet_append_ne _ _ _ _ hkm] at hk
            exact hinv.val k l hk
      have h_port_has1 : ∀ k, dictHas ports1 k = dictHas topo1 k := by
        intro k
        rw [hports1, htopo1]
        by_cases hh : dictHas st.module_to_circuit_topology m0 = true
        · rw [hh, show dictHas st.module_to_port m0 = true from (hinv.port_has m0).trans hh]
          simp only [if_true]
          exact hinv.port_has k
        · have hh2 : dictHas st.module_to_circuit_topology m0 = false := by simpa using hh
          rw [hh2, show dictHas st.module_to_port m0 = false from
            (hinv.port_has m0).trans hh2]
          simp only [Bool.false_eq_true, if_false]
          rw [dictHas_append, dictHas_append, hinv.port_has k]
      have h_port_empty1 : ∀ k s, dictGet ports1 k = some s → s = (∅ : Finset Port) := by
        intro k s hk
        rw [hports1] at hk
        by_cases hh : dictHas st.module_to_port m0 = true
        · rw [hh] at hk
          simp only [if_true] at hk
          exact hinv.port_empty k s hk
        · rw [show dictHas st.module_to_port m0 = false from by simpa using hh] at hk
          simp only [Bool.false_eq_true, if_false] at hk
          by_cases hkm : k = m0
          · rw [hkm] at hk
            rw [dictGet_append_self _ _ _ (by simpa using hh)] at hk
            exact (Option.some.inj hk).symm
          · rw [dictGet_append_ne _ _ _ _ hkm] at hk
            exact hinv.port_empty k s hk
      have h_curHas1 : dictHas topo1 m0 = true := (h_has1 m0).mpr (Or.inr rfl)
      rcases topoStep_after_decl _ _ _ hstep with ⟨hraw, rfl⟩ |
        ⟨pe, m, l, i, hraw, hmod, hget, hinst, rfl⟩
      · -- no connection appended
        have hct : connTrace (pre ++ [n]) none none = connTrace pre none none := by
          rw [connTrace_append, connTrace_singleton_none n _ _ (hcee.trans hraw)]
          simp
        refine ⟨by simpa using hcm.symm, by simpa using hci.symm, h_nodup1, ?_, ?_, ?_, ?_, ?_⟩
        · intro k
          rw [show (TopoState.mk ports1 topo1 (some m0)
            ((instEventRaw d).or st.«instance»)).module_to_circuit_topology = topo1 from rfl]
          rw [h_has1 k, hdt]
          simp
        · intro k
          exact h_port_has1 k
        · intro k s hk
          exact h_port_empty1 k s hk
        · intro k l hk
          rw [hct]
          exact h_val1 k l hk
        · intro m hm
          have hmm : m0 = m := by simpa using hm
          rw [← hmm]
          exact h_curHas1
      · -- a connection was appended to the current module m0
        obtain rfl : m = m0 := (Option.some.inj hmod).symm
        have hct : connTrace (pre ++ [n]) none none =
            connTrace pre none none ++ [(m0, Connection.mk pe.2 pe.1 i)] := by
          rw [connTrace_append, connTrace_singleton_some n _ _ pe m0 i (hcee.trans hraw)
            (by rw [hdn]; rfl) (by rw [hie, ← hinv.inst]; exact hinst)]
        have hhas : dictHas topo1 m0 = true := dictHas_of_get _ _ _ hget
        refine ⟨by simpa using hcm.symm, ?_, ?_, ?_, ?_, ?_, ?_, ?_⟩
        · show some i = _
          rw [hci]
          exact hinst.symm
        · rw [show (TopoState.mk ports1 (dictSet topo1 m0 (l ++ [Connection.mk pe.2 pe.1 i]))
            (some m0) (some i)).module_to_circuit_topology = _ from rfl]
          rw [dictSet_keys _ _ _ hhas]
          exact h_nodup1
        · intro k
          rw [show (TopoState.mk ports1 (dictSet topo1 m0 (l ++ [Connection.mk pe.2 pe.1 i]))
            (some m0) (some i)).module_to_circuit_topology = _ from rfl]
          rw [dictHas_set _ _ _ _ hhas, h_has1 k, hdt]
          simp
        · intro k
          rw [show (TopoState.mk ports1 (dictSet topo1 m0 (l ++ [Connection.mk pe.2 pe.1 i]))
            (some m0) (some i)).module_to_port = ports1 from rfl]
          rw [dictHas_set _ _ _ _ hhas]
          exact h_port_has1 k
        · intro k s hk
          exact h_port_empty1 k s hk
        · intro k l2 hk
          by_cases hkm : k = m0
          · rw [hkm] at hk ⊢
            rw [show (TopoState.mk ports1 (dictSet topo1 m0 (l ++ [Connection.mk pe.2 pe.1 i]))
              (some m0) (some i)).module_to_circuit_topology = _ from rfl] at hk
            rw [dictGet_set_self _ _ _ hhas] at hk
            rw [hct, List.filterMap_append]
            have hl2 : l2 = l ++ [Connection.mk pe.2 pe.1 i] := (Option.some.inj hk).symm
            rw [hl2, h_val1 m0 l hget]
            simp
          · rw [show (TopoState.mk ports1 (dictSet topo1 m0 (l ++ [Connection.mk pe.2 pe.1 i]))
              (some m0) (some i)).module_to_circuit_topology = _ from rfl] at hk
            rw [dictGet_set_ne _ _ _ _ hkm] at hk
            rw [hct, List.filterMap_append]
            have hnil : List.filterMap (fun p => if p.1 = k then some p.2 else none)
                [(m0, Connection.mk pe.2 pe.1 i)] = [] := by
              simp [Ne.symm hkm]
            rw [hnil, List.append_nil]
            exact h_val1 k l2 hk
        · intro m2 hm2
          have hm2e : m0 = m2 := by simpa using hm2
          rw [← hm2e]
          rw [show (TopoState.mk ports1 (dictSet topo1 m0 (l ++ [Connection.mk pe.2 pe.1 i]))
            (some m0) (some i)).module_to_circuit_topology = _ from rfl]
          rw [dictHas_set _ _ _ _ hhas]
          exact hhas
  · -- the declaration branch did not fire
    have hdecl2 : strIn "ModuleDeclaration" n.type_name = false := by simpa using hdecl
    rw [hdecl2] at hstep
    simp only [Bool.false_eq_true, if_false] at hstep
    have hdn : declaredName n = none := declaredName_of_not_decl n hdecl2
    have heff : effNode n = some n := effNode_of_not_decl n hdecl2
    have hie : instEvent n = instEventRaw n := by
      unfold instEvent
      rw [heff]
      rfl
    have hcee : connEvent n = connEventRaw n := by
      unfold connEvent
      rw [heff]
      rfl
    have hcm : curModule (pre ++ [n]) none = curModule pre none := by
      rw [curModule_snoc, hdn]
      rfl
    have hci : curInst (pre ++ [n]) none = (instEventRaw n).or (st.«instance») := by
      rw [curInst_snoc, hie, hinv.inst]
    have hdt : declTrace (pre ++ [n]) = declTrace pre := by
      rw [declTrace_append, declTrace_singleton, hdn]
      simp
    rcases topoStep_after_decl _ _ _ hstep with ⟨hraw, rfl⟩ |
      ⟨pe, m, l, i, hraw, hmod, hget, hinst, rfl⟩
    · have hct : connTrace (pre ++ [n]) none none = connTrace pre none none := by
        rw [connTrace_append, connTrace_singleton_none n _ _ (hcee.trans hraw)]
        simp
      refine ⟨?_, by simpa using hci.symm, hinv.nodup, ?_, hinv.port_has, hinv.port_empty,
        ?_, hinv.curHas⟩
      · show st.module = _
        rw [hcm]
        exact hinv.mod
      · intro k
        rw [hdt]
        exact hinv.has_iff k
      · intro k l hk
        rw [hct]
        exact hinv.val k l hk
    · have hcur : curModule pre none = some m := hinv.mod ▸ hmod
      have hct : connTrace (pre ++ [n]) none none =
          connTrace pre none none ++ [(m, Connection.mk pe.2 pe.1 i)] := by
        rw [connTrace_append, connTrace_singleton_some n _ _ pe m i (hcee.trans hraw)
          (by rw [hdn]; simpa using hcur)
          (by rw [hie, ← hinv.inst]; exact hinst)]
      have hhas : dictHas st.module_to_circuit_topology m = true := dictHas_of_get _ _ _ hget
      refine ⟨?_, ?_, ?_, ?_, ?_, hinv.port_empty, ?_, ?_⟩
      · show some m = _
        rw [hcm]
        exact hcur.symm
      · show some i = _
        rw [hci]
        exact hinst.symm
      · rw [show (TopoState.mk st.module_to_port
          (dictSet st.module_to_circuit_topology m (l ++ [Connection.mk pe.2 pe.1 i]))
          (some m) (some i)).module_to_circuit_topology = _ from rfl]
        rw [dictSet_keys _ _ _ hhas]
        exact hinv.nodup
      · intro k
        rw [show (TopoState.mk st.module_to_port
          (dictSet st.module_to_circuit_topology m (l ++ [Connection.mk pe.2 pe.1 i]))
          (some m) (some i)).module_to_circuit_topology = _ from rfl]
        rw [dictHas_set _ _ _ _ hhas, hdt]
        exact hinv.has_iff k
      · intro k
        rw [show (TopoState.mk st.module_to_port
          (dictSet st.module_to_circuit_topology m (l ++ [Connection.mk pe.2 pe.1 i]))
          (some m) (some i)).module_to_circuit_topology = _ from rfl]
        rw [dictHas_set _ _ _ _ hhas]
        exact hinv.port_has k
      · intro k l2 hk
        by_cases hkm : k = m
        · rw [hkm] at hk ⊢
          rw [show (TopoState.mk st.module_to_port
            (dictSet st.module_to_circuit_topology m (l ++ [Connection.mk pe.2 pe.1 i]))
            (some m) (some i)).module_to_circuit_topology = _ from rfl] at hk
          rw [dictGet_set_self _ _ _ hhas] at hk
          rw [hct, List.filterMap_append]
          have hl2 : l2 = l ++ [Connection.mk pe.2 pe.1 i] := (Option.some.inj hk).symm
          rw [hl2, hinv.val m l hget]
          simp
        · rw [show (TopoState.mk st.module_to_port
            (dictSet st.module_to_circuit_topology m (l ++ [Connection.mk pe.2 pe.1 i]))
            (some m) (some i)).module_to_circuit_topology = _ from rfl] at hk
          rw [dictGet_set_ne _ _ _ _ hkm] at hk
          rw [hct, List.filterMap_append]
          have hnil : List.filterMap (fun p => if p.1 = k then some p.2 else none)
              [(m, Connection.mk pe.2 pe.1 i)] = [] := by
            simp [Ne.symm hkm]
          rw [hnil, List.append_nil]
          exact hinv.val k l2 hk
      · intro m2 hm2
        have hm2e : m = m2 := by simpa using hm2
        rw [← hm2e]
        rw [show (TopoState.mk st.module_to_port
          (dictSet st.module_to_circuit_topology m (l ++ [Connection.mk pe.2 pe.1 i]))
          (some m) (some i)).module_to_circuit_topology = _ from rfl]
        rw [dictHas_set _ _ _ _ hhas]
        exact hhas


theorem TopoInv_nil : TopoInv [] (TopoState.mk [] [] none none) := by
  refine ⟨rfl, rfl, List.nodup_nil, ?_, ?_, ?_, ?_, ?_⟩
  · intro k
    simp [dictHas, declTrace]
  · intro k
    rfl
  · intro k s h
    simp [dictGet] at h
  · intro k l h
    simp [dictGet] at h
  · intro m h
    exact Option.noConfusion h

theorem topo_run_inv (tree : List SNode) : ∀ (pre : List SNode) (st st1 : TopoState),
    TopoInv pre st → runFold topoStep st tree = .ok st1 → TopoInv (pre ++ tree) st1 := by
  induction tree with
  | nil =>
    intro pre st st1 hinv h
    have h2 : (Except.ok st : Except PyError TopoState) = Except.ok st1 := by
      simpa [runFold] using h
    rw [List.append_nil]
    exact (Except.ok.inj h2) ▸ hinv
  | cons n ns ih =>
    intro pre st st1 hinv h
    unfold runFold at h
    cases hstep : topoStep st n with
    | error e => rw [hstep] at h; exact Except.noConfusion h
    | ok stm =>
      rw [hstep] at h
      have := ih (pre ++ [n]) stm st1 (topoStep_preserves pre st stm n hinv hstep) h
      simpa using this

theorem buildModules_eq (st : TopoState) (l : List (String × List Connection))
    (h : ∀ p ∈ l, buildModule st p.1 = .ok (Module.mk p.1 (∅ : Finset Port) p.2)) :
    buildModules st (l.map (fun p => p.1)) =
      .ok (l.map (fun p => Module.mk p.1 (∅ : Finset Port) p.2)) := by
  induction l with
  | nil => rfl
  | cons p ps ih =>
    simp only [List.map_cons, buildModules]
    rw [h p (List.mem_cons_self p ps)]
    rw [ih (fun q hq => h q (List.mem_cons_of_mem p hq))]

/-- Characterization of a successful `get_circuit_topology` run: the fold
succeeds, its final state satisfies the loop invariant, and the returned
modules are exactly the `module_to_circuit_topology` entries, each with an
empty port set. -/
theorem get_circuit_topology_ok (tree : List SNode) (mods : List Module)
    (h : get_circuit_topology tree = .ok mods) :
    ∃ st : TopoState, runFold topoStep (TopoState.mk [] [] none none) tree = .ok st ∧
      TopoInv tree st ∧
      mods = st.module_to_circuit_topology.map
        (fun p => Module.mk p.1 (∅ : Finset Port) p.2) := by
  unfold get_circuit_topology at h
  cases hr : runFold topoStep (TopoState.mk [] [] none none) tree with
  | error e => rw [hr] at h; exact Except.noConfusion h
  | ok st =>
    rw [hr] at h
    simp only [] at h
    have hinv : TopoInv tree st := by
      simpa using topo_run_inv tree [] (TopoState.mk [] [] none none) st TopoInv_nil hr
    have hb : ∀ p ∈ st.module_to_circuit_topology,
        buildModule st p.1 = .ok (Module.mk p.1 (∅ : Finset Port) p.2) := by
      intro p hp
      have hhas : dictHas st.module_to_port p.1 = true := by
        rw [hinv.port_has p.1]
        exact (dictHas_iff_mem _ _).mpr (List.mem_map_of_mem Prod.fst hp)
      rcases dictGet_some_of_has _ _ hhas with ⟨s, hs⟩
      simp only [buildModule, dictGet_of_mem_nodup _ p hinv.nodup hp, hs,
        hinv.port_empty p.1 s hs]
    rw [buildModules_eq st _ hb] at h
    exact ⟨st, rfl, hinv, (Except.ok.inj h).symm⟩


theorem nodeWF_module_identifier (n d : SNode) (hwf : nodeWF n = true)
    (hu : n.uModuleIdentifier = some d) : d.type_name = "ModuleIdentifier" := by
  unfold nodeWF at hwf
  simp only [Bool.and_eq_true] at hwf
  have h1 := hwf.1.1.1.1
  rw [hu] at h1
  exact beq_iff_eq.mp (by simpa [tagMatches] using h1)

/-- Under the collaborator contract, a connection event can only fire on a
stream element that is itself a `NamedPortConnection` node (not on a
rebound declaration identifier), and its pair is the stripped text of the
two resolved descendants. -/
theorem connEvent_fields (n : SNode) (hwf : nodeWF n = true) (pe : String × String)
    (h : connEvent n = some pe) :
    declaredName n = none ∧ effNode n = some n ∧
    n.type_name = "NamedPortConnection" ∧
    ∃ po ex, n.uPortIdentifier = some po ∧ n.uExpression = some ex ∧
      pe = (pyStrip po.get_str, pyStrip ex.get_str) := by
  by_cases hdecl : strIn "ModuleDeclaration" n.type_name = true
  · exfalso
    unfold connEvent at h
    rw [effNode_of_decl n hdecl] at h
    cases hu : n.uModuleIdentifier with
    | none =>
      rw [hu] at h
      exact Option.noConfusion h
    | some d =>
      rw [hu] at h
      have h2 : connEventRaw d = some pe := h
      have hd : d.type_name = "ModuleIdentifier" := nodeWF_module_identifier n d hwf hu
      unfold connEventRaw at h2
      rw [if_neg (show ¬d.type_name = "NamedPortConnection" from by rw [hd]; decide)] at h2
      exact Option.noConfusion h2
  · have hd2 : strIn "ModuleDeclaration" n.type_name = false := by simpa using hdecl
    have heff : effNode n = some n := effNode_of_not_decl n hd2
    refine ⟨declaredName_of_not_decl n hd2, heff, ?_⟩
    unfold connEvent at h
    rw [heff] at h
    have h2 : connEventRaw n = some pe := h
    unfold connEventRaw at h2
    by_cases ht : n.type_name = "NamedPortConnection"
    · refine ⟨ht, ?_⟩
      rw [if_pos ht] at h2
      cases hp : n.uPortIdentifier with
      | none =>
        rw [hp] at h2
        exact absurd h2 (by simp)
      | some po =>
        rw [hp] at h2
        cases he : n.uExpression with
        | none =>
          rw [he] at h2
          exact absurd h2 (by simp)
        | some ex =>
          rw [he] at h2
          exact ⟨po, ex, rfl, rfl, (Option.some.inj h2).symm⟩
    · rw [if_neg ht] at h2
      exact absurd h2 (by simp)

/-- Under the collaborator contract, an instantiation event can only fire
on a stream element that is itself a `ModuleInstantiation` node, and its
`Instance` is the stripped text of the two resolved identifiers. -/
theorem instEvent_fields (n : SNode) (hwf : nodeWF n = true) (i : Instance)
    (h : instEvent n = some i) :
    declaredName n = none ∧ effNode n = some n ∧
    n.type_name = "ModuleInstantiation" ∧
    ∃ mo ins, n.uModuleIdentifier = some mo ∧ n.uInstanceIdentifier = some ins ∧
      i = Instance.mk (pyStrip ins.get_str) (pyStrip mo.get_str) := by
  by_cases hdecl : strIn "ModuleDeclaration" n.type_name = true
  · exfalso
    unfold instEvent at h
    rw [effNode_of_decl n hdecl] at h
    cases hu : n.uModuleIdentifier with
    | none =>
      rw [hu] at h
      exact Option.noConfusion h
    | some d =>
      rw [hu] at h
      have h2 : instEventRaw d = some i := h
      have hd : d.type_name = "ModuleIdentifier" := nodeWF_module_identifier n d hwf hu
      unfold instEventRaw at h2
      rw [if_neg (show ¬d.type_name = "ModuleInstantiation" from by rw [hd]; decide)] at h2
      exact Option.noConfusion h2
  · have hd2 : strIn "ModuleDeclaration" n.type_name = false := by simpa using hdecl
    have heff : effNode n = some n := effNode_of_not_decl n hd2
    refine ⟨declaredName_of_not_decl n hd2, heff, ?_⟩
    unfold instEvent at h
    rw [heff] at h
    have h2 : instEventRaw n = some i := h
    unfold instEventRaw at h2
    by_cases ht : n.type_name = "ModuleInstantiation"
    · refine ⟨ht, ?_⟩
      rw [if_pos ht] at h2
      cases hmo : n.uModuleIdentifier with
      | none =>
        rw [hmo] at h2
        exact absurd h2 (by simp)
      | some mo =>
        rw [hmo] at h2
        cases hins : n.uInstanceIdentifier with
        | none =>
          rw [hins] at h2
          exact absurd h2 (by simp)
        | some ins =>
          rw [hins] at h2
          exact ⟨mo, ins, rfl, rfl, (Option.some.inj h2).symm⟩
    · rw [if_neg ht] at h2
      exact absurd h2 (by simp)

theorem instEvent_none_of_connEvent (n : SNode) (hwf : nodeWF n = true)
    (pe : String × String) (h : connEvent n = some pe) : instEvent n = none := by
  rcases connEvent_fields n hwf pe h with ⟨_, heff, ht, _⟩
  unfold instEvent
  rw [heff]
  have : instEventRaw n = none := by
    unfold instEventRaw
    rw [if_neg (show ¬n.type_name = "ModuleInstantiation" from by rw [ht]; decide)]
  exact this

theorem instTrace_mem_indexed (l : List SNode) :
    ∀ (cm : Option String) (m : String) (i : Instance),
    (∀ n ∈ l, nodeWF n = true) → (m, i) ∈ instTrace l cm →
    ∃ k, ∃ hk : k < l.length, instEvent (l.get ⟨k, hk⟩) = some i ∧
      curModule (l.take k) cm = some m := by
  induction l with
  | nil =>
    intro cm m i _ h
    simp [instTrace] at h
  | cons n ns ih =>
    intro cm m i hwf h
    have hshift : ∀ o : Option String, (declaredName n).or cm = o →
        (m, i) ∈ instTrace ns o →
        ∃ k, ∃ hk : k < (n :: ns).length, instEvent ((n :: ns).get ⟨k, hk⟩) = some i ∧
          curModule ((n :: ns).take k) cm = some m := by
      intro o ho hmem
      rcases ih o m i
        (fun x hx => hwf x (List.mem_cons_of_mem n hx)) hmem with ⟨k, hk, h1, h2⟩
      refine ⟨k + 1, by simpa using Nat.succ_lt_succ hk, ?_, ?_⟩
      · simpa using h1
      · rw [List.take_succ_cons, curModule_cons, ho]
        exact h2
    rw [show instTrace (n :: ns) cm =
        (match instEvent n, (declaredName n).or cm with
         | some i1, some m1 => (m1, i1) :: instTrace ns ((declaredName n).or cm)
         | _, _ => instTrace ns ((declaredName n).or cm)) from rfl] at h
    cases hi : instEvent n with
    | none =>
      rw [hi] at h
      cases hc : (declaredName n).or cm with
      | none => rw [hc] at h; exact hshift none hc (by simpa using h)
      | some m1 => rw [hc] at h; exact hshift (some m1) hc (by simpa using h)
    | some i1 =>
      rw [hi] at h
      cases hc : (declaredName n).or cm with
      | none => rw [hc] at h; exact hshift none hc (by simpa using h)
      | some m1 =>
        rw [hc] at h
        rcases List.mem_cons.mp h with heq | h2
        · have hm1 : m1 = m := ((Prod.mk.injEq _ _ _ _).mp heq.symm).1
          have hi1 : i1 = i := ((Prod.mk.injEq _ _ _ _).mp heq.symm).2
          have hdn : declaredName n = none :=
            (instEvent_fields n (hwf n (List.mem_cons_self n ns)) i1 hi).1
          refine ⟨0, by simp, ?_, ?_⟩
          · simpa [hi1] using hi
          · rw [hdn] at hc
            simp only [List.take_zero]
            rw [← hm1]
            exact hc
        · exact hshift (some m1) hc h2

theorem connTrace_mem_indexed (l : List SNode) :
    ∀ (cm : Option String) (ci : Option Instance) (m : String) (c : Connection),
    (∀ n ∈ l, nodeWF n = true) → (m, c) ∈ connTrace l cm ci →
    ∃ k, ∃ hk : k < l.length, connEvent (l.get ⟨k, hk⟩) = some (c.port_name, c.name) ∧
      curModule (l.take k) cm = some m ∧ curInst (l.take k) ci = some c.«instance» := by
  induction l with
  | nil =>
    intro cm ci m c _ h
    simp [connTrace] at h
  | cons n ns ih =>
    intro cm ci m c hwf h
    have hshift : ∀ (o : Option String) (oi : Option Instance),
        (declaredName n).or cm = o → (instEvent n).or ci = oi →
        (m, c) ∈ connTrace ns o oi →
        ∃ k, ∃ hk : k < (n :: ns).length,
          connEvent ((n :: ns).get ⟨k, hk⟩) = some (c.port_name, c.name) ∧
          curModule ((n :: ns).take k) cm = some m ∧
          curInst ((n :: ns).take k) ci = some c.«instance» := by
      intro o oi ho hoi hmem
      rcases ih o oi m c
        (fun x hx => hwf x (List.mem_cons_of_mem n hx)) hmem with ⟨k, hk, h1, h2, h3⟩
      refine ⟨k + 1, by simpa using Nat.succ_lt_succ hk, ?_, ?_, ?_⟩
      · simpa using h1
      · rw [List.take_succ_cons, curModule_cons, ho]
        exact h2
      · rw [List.take_succ_cons, curInst_cons, hoi]
        exact h3
    rw [show connTrace (n :: ns) cm ci =
        (match connEvent n, (declaredName n).or cm, (instEvent n).or ci with
         | some pe, some m1, some i1 =>
            (m1, Connection.mk pe.2 pe.1 i1) ::
              connTrace ns ((declaredName n).or cm) ((instEvent n).or ci)
         | _, _, _ => connTrace ns ((declaredName n).or cm) ((instEvent n).or ci))
      from rfl] at h
    cases hce : connEvent n with
    | none =>
      rw [hce] at h
      cases hc : (declaredName n).or cm with
      | none => rw [hc] at h; exact hshift none _ hc rfl (by simpa using h)
      | some m1 => rw [hc] at h; exact hshift (some m1) _ hc rfl (by simpa using h)
    | some pe =>
      rw [hce] at h
      cases hc : (declaredName n).or cm with
      | none => rw [hc] at h; exact hshift none _ hc rfl (by simpa using h)
      | some m1 =>
        rw [hc] at h
        cases hi : (instEvent n).or ci with
        | none => rw [hi] at h; exact hshift (some m1) none hc hi (by simpa using h)
        | some i1 =>
          rw [hi] at h
          rcases List.mem_cons.mp h with heq | h2
          · have hm1 : m1 = m := ((Prod.mk.injEq _ _ _ _).mp heq.symm).1
            have hcc : Connection.mk pe.2 pe.1 i1 = c :=
              ((Prod.mk.injEq _ _ _ _).mp heq.symm).2
            have hdn : declaredName n = none :=
              (connEvent_fields n (hwf n (List.mem_cons_self n ns)) pe hce).1
            have hien : instEvent n = none :=
              instEvent_none_of_connEvent n (hwf n (List.mem_cons_self n ns)) pe hce
            refine ⟨0, by simp, ?_, ?_, ?_⟩
            · rw [← hcc]
              simpa using hce
            · rw [hdn] at hc
              simp only [List.take_zero]
              rw [← hm1]
              exact hc
            · rw [hien] at hi
              simp only [List.take_zero]
              rw [← hcc]
              exact hi
          · exact hshift (some m1) (some i1) hc hi h2


/-- C5: for every module in a successful `get_circuit_topology` run, the
module's connection list is exactly the stream's resolvable
named-port-connection events attributed to that module, in stream order:
nothing is reordered, dropped, or duplicated. -/
theorem c5_connection_lists_mirror_stream_order (tree : List SNode) (mods : List Module)
    (h : get_circuit_topology tree = .ok mods) :
    ∀ M ∈ mods, M.connections = (connTrace tree none none).filterMap
      (fun p => if p.1 = M.name then some p.2 else none) := by
  intro M hM
  rcases get_circuit_topology_ok tree mods h with ⟨st, _, hinv, rfl⟩
  rcases List.mem_map.mp hM with ⟨p, hp, rfl⟩
  exact hinv.val p.1 p.2 (dictGet_of_mem_nodup _ p hinv.nodup hp)

theorem c5_witness :
    (Module.mk "top" (∅ : Finset Port)
      [Connection.mk "x" "in" (Instance.mk "s1" "sub")]).connections =
    (connTrace [declNode "top", instNode "sub" "s1", connNode "in" "x"] none none).filterMap
      (fun p => if p.1 = (Module.mk "top" (∅ : Finset Port)
        [Connection.mk "x" "in" (Instance.mk "s1" "sub")]).name then some p.2 else none) :=
  c5_connection_lists_mirror_stream_order
    [declNode "top", instNode "sub" "s1", connNode "in" "x"]
    [Module.mk "top" (∅ : Finset Port) [Connection.mk "x" "in" (Instance.mk "s1" "sub")]]
    rfl _ (List.mem_cons_self _ _)

/-- C4: in a well-formed tree, every recorded connection comes from a
named-connection event whose owning module is the most recent successful
declaration before it in the stream and whose instance is the most recent
successful instantiation before it; every recorded instance likewise
belongs to the most recently declared module.  (Proved for every tree, so
in particular for those whose modules are stream-contiguous.) -/
theorem c4_events_attributed_to_most_recent_context (tree : List SNode)
    (hwf : ∀ n ∈ tree, nodeWF n = true) :
    (∀ mods, get_circuit_topology tree = .ok mods → ∀ M ∈ mods, ∀ c ∈ M.connections,
      ∃ k, ∃ hk : k < tree.length,
        connEvent (tree.get ⟨k, hk⟩) = some (c.port_name, c.name) ∧
        curModule (tree.take k) none = some M.name ∧
        curInst (tree.take k) none = some c.«instance») ∧
    (∀ imap, get_module_instance_map tree = .ok imap → ∀ p ∈ imap, ∀ i ∈ p.2,
      ∃ k, ∃ hk : k < tree.length,
        instEvent (tree.get ⟨k, hk⟩) = some i ∧
        curModule (tree.take k) none = some p.1) := by
  constructor
  · intro mods h M hM c hc
    rcases get_circuit_topology_ok tree mods h with ⟨st, _, hinv, rfl⟩
    rcases List.mem_map.mp hM with ⟨p, hp, rfl⟩
    have hc2 : c ∈ p.2 := hc
    rw [hinv.val p.1 p.2 (dictGet_of_mem_nodup _ p hinv.nodup hp)] at hc2
    rcases List.mem_filterMap.mp hc2 with ⟨q, hq, hqe⟩
    by_cases hq1 : q.1 = p.1
    · rw [if_pos hq1] at hqe
      have hmem : (p.1, c) ∈ connTrace tree none none := by
        rw [← hq1, ← Option.some.inj hqe]
        exact hq
      exact connTrace_mem_indexed tree none none p.1 c hwf hmem
    · rw [if_neg hq1] at hqe
      exact absurd hqe (by simp)
  · intro imap h p hp i hi
    rcases get_module_instance_map_ok tree imap h with ⟨st, _, hmap, hinv⟩
    rw [← hmap] at hp
    have hval := hinv.val p.1 p.2 (dictGet_of_mem_nodup _ p hinv.nodup hp)
    have hi2 : i ∈ p.2 := hi
    rw [hval] at hi2
    rcases List.mem_filterMap.mp hi2 with ⟨q, hq, hqe⟩
    by_cases hq1 : q.1 = p.1
    · rw [if_pos hq1] at hqe
      have hmem : (p.1, i) ∈ instTrace tree none := by
        rw [← hq1, ← Option.some.inj hqe]
        exact hq
      exact instTrace_mem_indexed tree none p.1 i hwf hmem
    · rw [if_neg hq1] at hqe
      exact absurd hqe (by simp)

theorem c4_witness : ∃ k, ∃ hk : k < 3,
    connEvent ([declNode "top", instNode "sub" "s1", connNode "in" "x"].get ⟨k, hk⟩) =
      some ((Connection.mk "x" "in" (Instance.mk "s1" "sub")).port_name,
        (Connection.mk "x" "in" (Instance.mk "s1" "sub")).name) ∧
    curModule ([declNode "top", instNode "sub" "s1", connNode "in" "x"].take k) none =
      some (Module.mk "top" (∅ : Finset Port)
        [Connection.mk "x" "in" (Instance.mk "s1" "sub")]).name ∧
    curInst ([declNode "top", instNode "sub" "s1", connNode "in" "x"].take k) none =
      some (Connection.mk "x" "in" (Instance.mk "s1" "sub")).«instance» :=
  (c4_events_attributed_to_most_recent_context
    [declNode "top", instNode "sub" "s1", connNode "in" "x"] (by decide)).1
    [Module.mk "top" (∅ : Finset Port) [Connection.mk "x" "in" (Instance.mk "s1" "sub")]]
    rfl _ (List.mem_cons_self _ _) _ (List.mem_cons_self _ _)

/-- C7: every module-declaration node whose identifier resolves produces
an entry in both builders' successful outputs, even when nothing else
follows it: a key with a (possibly empty) instance list in the map, and a
`Module` record in the topology. -/
theorem c7_every_resolvable_declaration_yields_entry (tree : List SNode) (n d : SNode)
    (hn : n ∈ tree) (htag : strIn "ModuleDeclaration" n.type_name = true)
    (hu : n.uModuleIdentifier = some d) :
    (∀ imap, get_module_instance_map tree = .ok imap →
      ∃ l, dictGet imap (pyStrip d.get_str) = some l) ∧
    (∀ mods, get_circuit_topology tree = .ok mods →
      ∃ M ∈ mods, M.name = pyStrip d.get_str) := by
  have hdm : pyStrip d.get_str ∈ declTrace tree := by
    unfold declTrace
    refine List.mem_filterMap.mpr ⟨n, hn, ?_⟩
    rw [declaredName_of_decl n htag, hu]
    rfl
  constructor
  · intro imap h
    rcases get_module_instance_map_ok tree imap h with ⟨st, _, hmap, hinv⟩
    rcases dictGet_some_of_has _ _ ((hinv.has_iff _).mpr hdm) with ⟨l, hl⟩
    refine ⟨l, ?_⟩
    rw [← hmap]
    exact hl
  · intro mods h
    rcases get_circuit_topology_ok tree mods h with ⟨st, _, hinv, rfl⟩
    have hhas := (hinv.has_iff (pyStrip d.get_str)).mpr hdm
    rcases List.mem_map.mp ((dictHas_iff_mem _ _).mp hhas) with ⟨p, hp, hpk⟩
    exact ⟨Module.mk p.1 (∅ : Finset Port) p.2, List.mem_map_of_mem _ hp, hpk⟩

theorem c7_witness :
    ∃ l, dictGet [("sub", ([] : List Instance))]
      (pyStrip (leaf "ModuleIdentifier" "sub").get_str) = some l :=
  (c7_every_resolvable_declaration_yields_entry [declNode "sub"] (declNode "sub")
    (leaf "ModuleIdentifier" "sub") (List.mem_cons_self _ _) (by decide) rfl).1
    [("sub", [])] rfl

/-- A module name in the output is the stripped source text of a resolved
`ModuleIdentifier` descendant of some declaration node of the tree. -/
def moduleNameFromTree (tree : List SNode) (k : String) : Prop :=
  ∃ n ∈ tree, ∃ d, strIn "ModuleDeclaration" n.type_name = true ∧
    n.uModuleIdentifier = some d ∧ k = pyStrip d.get_str

/-- An `Instance` in the output carries the stripped source text of the
two resolved identifier descendants of some instantiation node. -/
def instanceFromTree (tree : List SNode) (i : Instance) : Prop :=
  ∃ n ∈ tree, ∃ mo ins, n.type_name = "ModuleInstantiation" ∧
    n.uModuleIdentifier = some mo ∧ n.uInstanceIdentifier = some ins ∧
    i.name = pyStrip ins.get_str ∧ i.module_name = pyStrip mo.get_str

/-- A `Connection` in the output carries the stripped source text of the
two resolved descendants of some named-port-connection node. -/
def connectionFromTree (tree : List SNode) (c : Connection) : Prop :=
  ∃ n ∈ tree, ∃ po ex, n.type_name = "NamedPortConnection" ∧
    n.uPortIdentifier = some po ∧ n.uExpression = some ex ∧
    c.port_name = pyStrip po.get_str ∧ c.name = pyStrip ex.get_str

theorem declTrace_mem_from (tree : List SNode) (k : String) (h : k ∈ declTrace tree) :
    moduleNameFromTree tree k := by
  rcases List.mem_filterMap.mp h with ⟨n, hn, hdn⟩
  by_cases hdecl : strIn "ModuleDeclaration" n.type_name = true
  · rw [declaredName_of_decl n hdecl] at hdn
    cases hu : n.uModuleIdentifier with
    | none =>
      rw [hu] at hdn
      exact absurd hdn (by simp)
    | some d =>
      rw [hu] at hdn
      have hk : pyStrip d.get_str = k := by simpa using hdn
      exact ⟨n, hn, d, hdecl, hu, hk.symm⟩
  · rw [declaredName_of_not_decl n (by simpa using hdecl)] at hdn
    exact Option.noConfusion hdn

theorem instEvent_from (tree : List SNode) (n : SNode) (hn : n ∈ tree)
    (hwf : nodeWF n = true) (i : Instance) (h : instEvent n = some i) :
    instanceFromTree tree i := by
  rcases instEvent_fields n hwf i h with ⟨_, _, ht, mo, ins, hmo, hins, hi⟩
  exact ⟨n, hn, mo, ins, ht, hmo, hins, by rw [hi], by rw [hi]⟩

/-- C9 (implicit): every string stored in either builder's output — map
keys, module names, instance names and module types, connection signal
text and port names — is the `strip()`ped source text of the resolved
descendant node the event extracted, never the raw substring. -/
theorem c9_output_strings_are_stripped_node_text (tree : List SNode)
    (hwf : ∀ n ∈ tree, nodeWF n = true) :
    (∀ imap, get_module_instance_map tree = .ok imap → ∀ p ∈ imap,
      moduleNameFromTree tree p.1 ∧ ∀ i ∈ p.2, instanceFromTree tree i) ∧
    (∀ mods, get_circuit_topology tree = .ok mods → ∀ M ∈ mods,
      moduleNameFromTree tree M.name ∧ M.ports = (∅ : Finset Port) ∧
      ∀ c ∈ M.connections, connectionFromTree tree c ∧
        instanceFromTree tree c.«instance») := by
  constructor
  · intro imap h p hp
    rcases get_module_instance_map_ok tree imap h with ⟨st, _, hmap, hinv⟩
    rw [← hmap] at hp
    constructor
    · exact declTrace_mem_from tree p.1
        ((hinv.has_iff p.1).mp ((dictHas_iff_mem _ _).mpr (List.mem_map_of_mem Prod.fst hp)))
    · intro i hi
      have hi2 : i ∈ p.2 := hi
      rw [hinv.val p.1 p.2 (dictGet_of_mem_nodup _ p hinv.nodup hp)] at hi2
      rcases List.mem_filterMap.mp hi2 with ⟨q, hq, hqe⟩
      by_cases hq1 : q.1 = p.1
      · rw [if_pos hq1] at hqe
        have hmem : (p.1, i) ∈ instTrace tree none := by
          rw [← hq1, ← Option.some.inj hqe]
          exact hq
        rcases instTrace_mem_indexed tree none p.1 i hwf hmem with ⟨k, hk, h1, _⟩
        exact instEvent_from tree _ (List.get_mem tree k hk) (hwf _ (List.get_mem tree k hk))
          i h1
      · rw [if_neg hq1] at hqe
        exact absurd hqe (by simp)
  · intro mods h M hM
    rcases get_circuit_topology_ok tree mods h with ⟨st, _, hinv, rfl⟩
    rcases List.mem_map.mp hM with ⟨p, hp, rfl⟩
    refine ⟨?_, rfl, ?_⟩
    · exact declTrace_mem_from tree p.1
        ((hinv.has_iff p.1).mp ((dictHas_iff_mem _ _).mpr (List.mem_map_of_mem Prod.fst hp)))
    · intro c hc
      have hc2 : c ∈ p.2 := hc
      rw [hinv.val p.1 p.2 (dictGet_of_mem_nodup _ p hinv.nodup hp)] at hc2
      rcases List.mem_filterMap.mp hc2 with ⟨q, hq, hqe⟩
      by_cases hq1 : q.1 = p.1
      · rw [if_pos hq1] at hqe
        have hmem : (p.1, c) ∈ connTrace tree none none := by
          rw [← hq1, ← Option.some.inj hqe]
          exact hq
        rcases connTrace_mem_indexed tree none none p.1 c hwf hmem with ⟨k, hk, h1, _, h3⟩
        constructor
        · rcases connEvent_fields _ (hwf _ (List.get_mem tree k hk)) _ h1 with
            ⟨_, _, ht, po, ex, hpo, hex, hpe⟩
          have hpn : c.port_name = pyStrip po.get_str := congrArg Prod.fst hpe
          have hnm : c.name = pyStrip ex.get_str := congrArg Prod.snd hpe
          exact ⟨tree.get ⟨k, hk⟩, List.get_mem tree k hk, po, ex, ht, hpo, hex, hpn, hnm⟩
        · rcases curInst_eq_some (tree.take k) none c.«instance» h3 with ⟨n1, hn1, he1⟩ | hcontra
          · exact instEvent_from tree n1 (List.take_subset k tree hn1)
              (hwf n1 (List.take_subset k tree hn1)) c.«instance» he1
          · exact Option.noConfusion hcontra
      · rw [if_neg hq1] at hqe
        exact absurd hqe (by simp)

theorem c9_witness :
    moduleNameFromTree [declNode "top", instNode "sub" "s1", connNode "in" "x"]
      (Module.mk "top" (∅ : Finset Port)
        [Connection.mk "x" "in" (Instance.mk "s1" "sub")]).name :=
  (((c9_output_strings_are_stripped_node_text
    [declNode "top", instNode "sub" "s1", connNode "in" "x"] (by decide)).2
    [Module.mk "top" (∅ : Finset Port) [Connection.mk "x" "in" (Instance.mk "s1" "sub")]]
    rfl _ (List.mem_cons_self _ _))).1

end SV
